import Mathlib

/-!
Verification development for the Emotion Path Optimizer (`code.c`).

The C program is shallowly embedded below:
  * `EmotionNode`, `Edge`, `EmotionGraph` mirror the C structs (tips are the
    bare text of the C `Tip` struct);
  * C `float` values are idealized as exact rationals `ℚ`;
  * C functions returning `-1` for "absent index" become `Option Nat`;
  * `FLT_MAX` sentinel distances become `Option ℚ` with `none` standing for
    the "infinite / not found" sentinel;
  * the persistence file is modelled as its list of lines, each line a
    `List Char`; the byte-level behaviour of the libc primitives that the
    loader calls (`sscanf`, `strtok`, `atof`, `strchr`) is modelled on those
    character lists.
-/

namespace EmotionPath

/-- One edge of a node's adjacency list: C struct `Edge`
(`int to; float weight; char *procedure;`); a NULL procedure is `none`.
The C field `to` is a reserved token in Lean, hence `toIdx`. -/
structure Edge where
  toIdx : Nat
  weight : ℚ
  procedure : Option String
deriving DecidableEq, Repr

/-- C struct `EmotionNode`: name, hidden valence/baseline, adjacency list and
tip texts (the C `Tip` struct is a bare `char *text`). -/
structure EmotionNode where
  name : String
  valence : ℚ
  baseline_intensity : ℚ
  edges : List Edge
  tips : List String
deriving DecidableEq, Repr

/-- C struct `EmotionGraph`: the node array (capacity bookkeeping dropped). -/
structure EmotionGraph where
  nodes : List EmotionNode
deriving DecidableEq, Repr

/-- `graph_new()`: the empty graph. -/
def graph_new : EmotionGraph := ⟨[]⟩

/-- `graph_find`: first index whose name matches exactly, else absent (C: -1). -/
def graph_find (g : EmotionGraph) (name : String) : Option Nat :=
  g.nodes.findIdx? (fun n => n.name = name)

/-- `graph_add_node`: idempotent on names; a new node's stored name is
truncated to `MAX_NAME_LEN-1 = 47` characters (C `strncpy`).  Returns the
updated graph and the node's index (C returns the index only). -/
def graph_add_node (g : EmotionGraph) (name : String) (valence baseline : ℚ) :
    EmotionGraph × Nat :=
  match graph_find g name with
  | some idx => (g, idx)
  | none =>
      (⟨g.nodes ++ [{ name := String.mk (name.toList.take 47), valence := valence,
                      baseline_intensity := baseline, edges := [], tips := [] }]⟩,
       g.nodes.length)

/-- `is_positive_goal_name`: membership in the fixed goal set. -/
def is_positive_goal_name (name : String) : Bool :=
  name = "happy" || name = "calm" || name = "hopeful" || name = "peaceful"

/-- Weight clamping at edge creation: C `(weight < 0.0f) ? 0.0f : weight`. -/
def clampW (w : ℚ) : ℚ := if w < 0 then 0 else w

/-- Append an edge to the adjacency list of node `i` (C
`nu->edges[nu->edges_count++] = e`); out-of-range index leaves the graph
unchanged (unreachable in the C control flow that calls it). -/
def pushEdge (g : EmotionGraph) (i : Nat) (e : Edge) : EmotionGraph :=
  match g.nodes[i]? with
  | none => g
  | some n => ⟨g.nodes.set i { n with edges := n.edges ++ [e] }⟩

/-- `graph_add_edge`: refuse forbidden `overwhelmed → positive` pairs
entirely; otherwise resolve / auto-create both endpoints (from: valence −0.5,
baseline 5; to: valence 0, baseline 5), then append the forward edge with the
clamped weight and the given procedure, and the mirrored reverse edge with the
clamped weight and no procedure. -/
def graph_add_edge (g : EmotionGraph) (fromName toName : String) (weight : ℚ)
    (procedure : Option String) : EmotionGraph :=
  if fromName = "overwhelmed" ∧ is_positive_goal_name toName then g
  else
    let gu : EmotionGraph × Nat :=
      match graph_find g fromName with
      | some u => (g, u)
      | none => graph_add_node g fromName (-(1/2)) 5
    let gv : EmotionGraph × Nat :=
      match graph_find gu.1 toName with
      | some v => (gu.1, v)
      | none => graph_add_node gu.1 toName 0 5
    let u := gu.2
    let v := gv.2
    let g2 := pushEdge gv.1 u ⟨v, clampW weight, procedure⟩
    pushEdge g2 v ⟨u, clampW weight, none⟩

/-- `graph_add_tip`: auto-create the node (valence −0.2, baseline 5) if
absent, then append the tip text. -/
def graph_add_tip (g : EmotionGraph) (emotion tip_text : String) : EmotionGraph :=
  let gi : EmotionGraph × Nat :=
    match graph_find g emotion with
    | some i => (g, i)
    | none => graph_add_node g emotion (-(1/5)) 5
  match gi.1.nodes[gi.2]? with
  | none => gi.1
  | some n => ⟨gi.1.nodes.set gi.2 { n with tips := n.tips ++ [tip_text] }⟩

/-! ### Personalized Dijkstra (`run_dijkstra_personalized`)

C `float dist[n]` initialized to `FLT_MAX` is modelled as
`List (Option ℚ)` with `none` for the `FLT_MAX` sentinel; `int prev[n]`
initialized to `-1` is `List (Option Nat)`. -/

/-- A node used when an adjacency index is read out of range (unreachable for
graphs whose edges all target valid indices). -/
def dummyNode : EmotionNode :=
  { name := "", valence := 0, baseline_intensity := 0, edges := [], tips := [] }

/-- The adjusted weight the planner uses when relaxing edge `e`
(from C lines 264–269): base weight, ×0.85 if the target node has tips,
×0.8 if the edge has a (non-NULL) procedure, then ×(1 − (1 − valence)·0.05). -/
def adjusted_weight (g : EmotionGraph) (e : Edge) : ℚ :=
  let nv := g.nodes.getD e.toIdx dummyNode
  let w0 := e.weight
  let w1 := if 0 < nv.tips.length then w0 * (85/100) else w0
  let w2 := if e.procedure.isSome then w1 * (8/10) else w1
  let valence_bias := (1 - nv.valence) * (5/100)
  w2 * (1 - valence_bias)

/-- Mutable state of the C Dijkstra loop. -/
structure DState where
  dist : List (Option ℚ)
  visited : List Bool
  prev : List (Option Nat)
deriving DecidableEq, Repr

/-- Comparison `x < y` where `none` plays the role of `FLT_MAX`
(all genuine distances are finite, hence below the sentinel). -/
def ltD : Option ℚ → Option ℚ → Bool
  | some _, none => true
  | some d, some b => decide (d < b)
  | none, _ => false

/-- Selection scan (C lines 254–255): the first unvisited index of strictly
smallest finite tentative distance, `none` if all unvisited are at the
sentinel. -/
def pickMin (dist : List (Option ℚ)) (visited : List Bool) : Option Nat :=
  ((List.range dist.length).foldl
    (fun acc i =>
      if ¬ (visited.getD i false) ∧ ltD (dist.getD i none) acc.2 = true
      then (some i, dist.getD i none) else acc)
    ((none : Option Nat), (none : Option ℚ))).1

/-- Relaxation of one edge out of `u` (C lines 261–271). -/
def relaxEdge (g : EmotionGraph) (u : Nat) (st : DState) (e : Edge) : DState :=
  let v := e.toIdx
  if st.visited.getD v false then st
  else
    match st.dist.getD u none with
    | none => st
    | some du =>
        let alt := du + adjusted_weight g e
        if ltD (some alt) (st.dist.getD v none) then
          { st with dist := st.dist.set v (some alt), prev := st.prev.set v (some u) }
        else st

/-- Relax every outgoing edge of `u` in adjacency order (C lines 260–272). -/
def relaxAll (g : EmotionGraph) (u : Nat) (st : DState) : DState :=
  (g.nodes.getD u dummyNode).edges.foldl (relaxEdge g u) st

/-- The main loop (C lines 253–273), running at most `fuel` iterations
(the C loop bound is `n`): pick the closest unvisited node, stop if none,
mark it visited, stop if it is the destination, else relax its edges. -/
def dijkstraLoop (g : EmotionGraph) (dest : Nat) : Nat → DState → DState
  | 0, st => st
  | fuel + 1, st =>
      match pickMin st.dist st.visited with
      | none => st
      | some u =>
          let st1 := { st with visited := st.visited.set u true }
          if u = dest then st1
          else dijkstraLoop g dest fuel (relaxAll g u st1)

/-- Predecessor-chain walk (C lines 276–277), collecting `dest, prev dest, …`
until the `-1` sentinel; `fuel` bounds the walk as the C stack array does. -/
def prevChain (prev : List (Option Nat)) : Nat → Nat → List Nat
  | 0, cur => [cur]
  | fuel + 1, cur =>
      cur :: (match prev.getD cur none with
              | none => []
              | some p => prevChain prev fuel p)

/-- `run_dijkstra_personalized`: `none` models the C return of `FLT_MAX` with
the output path left unwritten; `some (cost, path)` models a found path
written into `out_path` in source-to-destination order. -/
def run_dijkstra_personalized (g : EmotionGraph) (src dest : Int) :
    Option (ℚ × List Nat) :=
  let n := g.nodes.length
  if src < 0 ∨ dest < 0 then none
  else
    let s := src.toNat
    let d := dest.toNat
    let st0 : DState :=
      { dist := (List.replicate n (none : Option ℚ)).set s (some 0),
        visited := List.replicate n false,
        prev := List.replicate n (none : Option Nat) }
    let st := dijkstraLoop g d n st0
    match st.dist.getD d none with
    | none => none
    | some c => some (c, (prevChain st.prev n d).reverse)

/-! ### Quoting codec (`fwrite_quoted` / `parse_quoted`)

Text is handled as `List Char`.  `MAX_LINE = 1024` in C, so the parse buffer
holds at most `MAX_LINE - 1 = 1023` characters. -/

/-- The escaped body `fwrite_quoted` emits between the two delimiting quotes:
each `"` or `\` is preceded by a `\`. -/
def escapeChars (s : List Char) : List Char :=
  s.flatMap (fun c => if c = '"' ∨ c = '\\' then ['\\', c] else [c])

/-- `fwrite_quoted`: opening quote, escaped body, closing quote. -/
def fwrite_quoted (s : List Char) : List Char :=
  '"' :: (escapeChars s ++ ['"'])

/-- After the parse loop breaks, C skips one closing quote if present
(`if (*p == '"') p++`) and returns buffer and end pointer. -/
def pq_finish (buf rest : List Char) : List Char × List Char :=
  match rest with
  | '"' :: r => (buf.reverse, r)
  | _ => (buf.reverse, rest)

/-- The scanning loop of `parse_quoted` (C lines 342–347): `buf` is the
accumulated text reversed; stop at end of input or unescaped quote; a `\`
followed by any character copies that character; the buffer capacity check
`bi >= MAX_LINE-1` runs after each append. -/
def pq_go : List Char → List Char → List Char × List Char
  | [], buf => (buf.reverse, [])
  | c :: rest, buf =>
      if c = '"' then (buf.reverse, rest)
      else if c = '\\' then
        match rest with
        | [] => ((c :: buf).reverse, [])
        | c2 :: rest2 =>
            if 1023 ≤ (c2 :: buf).length then pq_finish (c2 :: buf) rest2
            else pq_go rest2 (c2 :: buf)
      else
        if 1023 ≤ (c :: buf).length then pq_finish (c :: buf) rest
        else pq_go rest (c :: buf)

/-- `parse_quoted`: requires a leading quote (else C returns NULL), then runs
the scanning loop; returns the decoded text and the remaining input after the
closing quote. -/
def parse_quoted (s : List Char) : Option (List Char × List Char) :=
  match s with
  | '"' :: rest => some (pq_go rest [])
  | _ => none

lemma escapeChars_nil : escapeChars [] = [] := rfl

lemma escapeChars_cons (c : Char) (s : List Char) :
    escapeChars (c :: s) =
      (if c = '"' ∨ c = '\\' then ['\\', c] else [c]) ++ escapeChars s := by
  simp [escapeChars]

lemma pq_go_quote (rest buf : List Char) : pq_go ('"' :: rest) buf = (buf.reverse, rest) := by
  rw [pq_go.eq_def]
  simp

lemma pq_go_esc (c : Char) (rest buf : List Char) : pq_go ('\\' :: c :: rest) buf =
    if 1023 ≤ (c :: buf).length then pq_finish (c :: buf) rest else pq_go rest (c :: buf) := by
  simp [pq_go]

lemma pq_go_other (c : Char) (rest buf : List Char) (h1 : c ≠ '"') (h2 : c ≠ '\\') :
    pq_go (c :: rest) buf =
    if 1023 ≤ (c :: buf).length then pq_finish (c :: buf) rest else pq_go rest (c :: buf) := by
  rw [pq_go.eq_def]
  simp [h1, h2]

lemma pq_finish_quote (buf r : List Char) : pq_finish buf ('"' :: r) = (buf.reverse, r) := rfl

theorem pq_go_escape (s : List Char) : ∀ (acc r : List Char),
    acc.length + s.length ≤ 1023 →
    pq_go (escapeChars s ++ ('"' :: r)) acc = (acc.reverse ++ s, r) := by
  induction s with
  | nil =>
      intro acc r _
      rw [escapeChars_nil, List.nil_append, pq_go_quote]
      simp
  | cons c s ih =>
      intro acc r h
      have hlen : acc.length + s.length + 1 ≤ 1023 := by
        simpa [Nat.add_comm, Nat.add_left_comm, Nat.add_assoc] using h
      by_cases hc : c = '"' ∨ c = '\\'
      · rw [escapeChars_cons, if_pos hc]
        simp only [List.cons_append, List.append_assoc, List.nil_append]
        rw [pq_go_esc]
        by_cases hcap : 1023 ≤ (c :: acc).length
        · have hs : s = [] := by
            simp only [List.length_cons] at hcap
            have : s.length = 0 := by omega
            exact List.length_eq_zero.mp this
          subst hs
          rw [if_pos hcap, escapeChars_nil, List.nil_append, pq_finish_quote]
          simp
        · rw [if_neg hcap, ih (c :: acc) r (by simp; omega)]
          simp
      · push_neg at hc
        rw [escapeChars_cons, if_neg (by tauto)]
        simp only [List.cons_append, List.append_assoc, List.nil_append]
        rw [pq_go_other c _ _ hc.1 hc.2]
        by_cases hcap : 1023 ≤ (c :: acc).length
        · have hs : s = [] := by
            simp only [List.length_cons] at hcap
            have : s.length = 0 := by omega
            exact List.length_eq_zero.mp this
          subst hs
          rw [if_pos hcap, escapeChars_nil, List.nil_append, pq_finish_quote]
          simp
        · rw [if_neg hcap, ih (c :: acc) r (by simp; omega)]
          simp

/-- The quoting codec round-trips: decoding the written form of any text of
at most 1023 characters recovers the text exactly and leaves the rest of the
input untouched. -/
theorem parse_quoted_fwrite (s r : List Char) (h : s.length ≤ 1023) :
    parse_quoted (fwrite_quoted s ++ r) = some (s, r) := by
  have hgo := pq_go_escape s [] r (by simpa using h)
  simp only [fwrite_quoted, List.cons_append, parse_quoted, List.append_assoc,
    List.nil_append] at hgo ⊢
  rw [hgo]
  simp

/-- C8: the quoting codec round-trips every tip text up to the codec's
1023-character buffer capacity, including texts containing the double-quote
and backslash characters: `parse_quoted` applied to the output of
`fwrite_quoted` recovers the original text exactly, so such texts survive a
save/load round trip at the codec level. -/
theorem C8_quoting_roundtrip (t : String) (h : t.toList.length ≤ 1023) :
    parse_quoted (fwrite_quoted t.toList) = some (t.toList, []) := by
  simpa using parse_quoted_fwrite t.toList [] h

theorem C8_quoting_roundtrip_witness :
    parse_quoted (fwrite_quoted "say \"hi\" \\ then breathe".toList) =
      some ("say \"hi\" \\ then breathe".toList, []) :=
  C8_quoting_roundtrip "say \"hi\" \\ then breathe" (by decide)

/-! ### Graph-store lemmas -/

lemma map_set_self {α β : Type _} (f : α → β) {l : List α} {i : Nat} {n : α}
    (h : l[i]? = some n) : (l.map f).set i (f n) = l.map f := by
  apply List.ext_getElem?
  intro j
  by_cases hij : i = j
  · subst hij
    have hi : i < l.length := (List.getElem?_eq_some_iff.mp h).1
    rw [List.getElem?_set_self (by simpa using hi)]
    simp [List.getElem?_map, h]
  · rw [List.getElem?_set_ne hij]

lemma string_mk_toList (s : String) : String.mk s.toList = s := rfl

lemma pushEdge_other {g : EmotionGraph} {i j : Nat} (e : Edge) (hij : i ≠ j) :
    (pushEdge g i e).nodes[j]? = g.nodes[j]? := by
  unfold pushEdge
  cases h : g.nodes[i]? with
  | none => rfl
  | some n => simp [List.getElem?_set_ne hij]

lemma pushEdge_self {g : EmotionGraph} {i : Nat} {n : EmotionNode} (e : Edge)
    (h : g.nodes[i]? = some n) :
    (pushEdge g i e).nodes[i]? = some { n with edges := n.edges ++ [e] } := by
  unfold pushEdge
  rw [h]
  have hi : i < g.nodes.length := (List.getElem?_eq_some_iff.mp h).1
  simp [List.getElem?_set_self (by simpa using hi)]

lemma pushEdge_map_name (g : EmotionGraph) (i : Nat) (e : Edge) :
    (pushEdge g i e).nodes.map EmotionNode.name = g.nodes.map EmotionNode.name := by
  unfold pushEdge
  cases h : g.nodes[i]? with
  | none => rfl
  | some n =>
      show (g.nodes.set i _).map EmotionNode.name = _
      rw [List.map_set]
      simpa using map_set_self EmotionNode.name h

lemma pushEdge_length (g : EmotionGraph) (i : Nat) (e : Edge) :
    (pushEdge g i e).nodes.length = g.nodes.length := by
  unfold pushEdge
  cases g.nodes[i]? <;> simp

lemma graph_find_map_name (g : EmotionGraph) (a : String) :
    graph_find g a = (g.nodes.map EmotionNode.name).findIdx? (fun s => s = a) := by
  simp [graph_find, List.findIdx?_map]
  rfl

lemma graph_find_pushEdge (g : EmotionGraph) (i : Nat) (e : Edge) (a : String) :
    graph_find (pushEdge g i e) a = graph_find g a := by
  rw [graph_find_map_name, graph_find_map_name, pushEdge_map_name]

lemma graph_find_name {g : EmotionGraph} {a : String} {i : Nat}
    (h : graph_find g a = some i) : ∃ n, g.nodes[i]? = some n ∧ n.name = a := by
  unfold graph_find at h
  rw [List.findIdx?_eq_some_iff_getElem] at h
  obtain ⟨hi, hp, _⟩ := h
  exact ⟨g.nodes[i], List.getElem?_eq_getElem hi, by simpa using hp⟩

lemma graph_find_append (g : EmotionGraph) (n : EmotionNode) (a : String) :
    graph_find ⟨g.nodes ++ [n]⟩ a =
      (graph_find g a).or (if n.name = a then some g.nodes.length else none) := by
  by_cases hn : n.name = a <;>
    simp [graph_find, List.findIdx?_append, hn]

lemma graph_add_node_found {g : EmotionGraph} {name : String} {i : Nat}
    (h : graph_find g name = some i) (v b : ℚ) : graph_add_node g name v b = (g, i) := by
  simp [graph_add_node, h]

lemma graph_add_node_new {g : EmotionGraph} {name : String}
    (h : graph_find g name = none) (v b : ℚ) :
    graph_add_node g name v b =
      (⟨g.nodes ++ [{ name := String.mk (name.toList.take 47), valence := v,
                      baseline_intensity := b, edges := [], tips := [] }]⟩,
       g.nodes.length) := by
  simp [graph_add_node, h]

lemma graph_add_node_find_self {g : EmotionGraph} {a : String} (v b : ℚ)
    (ha : a.toList.length ≤ 47) :
    graph_find (graph_add_node g a v b).1 a = some (graph_add_node g a v b).2 := by
  cases hfa : graph_find g a with
  | some i => rw [graph_add_node_found hfa]; exact hfa
  | none =>
      rw [graph_add_node_new hfa]
      have hname : String.mk (a.toList.take 47) = a := by
        rw [List.take_of_length_le ha, string_mk_toList]
      rw [graph_find_append, hfa, hname]
      simp

lemma graph_add_node_find_other {g : EmotionGraph} {a c : String} (v b : ℚ)
    (hca : c ≠ a) (ha : a.toList.length ≤ 47) :
    graph_find (graph_add_node g a v b).1 c = graph_find g c := by
  cases hfa : graph_find g a with
  | some i => rw [graph_add_node_found hfa]
  | none =>
      rw [graph_add_node_new hfa]
      have hname : String.mk (a.toList.take 47) = a := by
        rw [List.take_of_length_le ha, string_mk_toList]
      rw [graph_find_append, hname, if_neg (fun h => hca h.symm)]
      simp

/-- The endpoint-resolution step of `graph_add_edge` (`graph_find` then
`graph_add_node` on miss) is extensionally just `graph_add_node`, since
`graph_add_node` is itself a find-first no-op. -/
lemma graph_add_edge_eq (g : EmotionGraph) (a b : String) (w : ℚ) (pr : Option String)
    (hforb : ¬ (a = "overwhelmed" ∧ is_positive_goal_name b = true)) :
    graph_add_edge g a b w pr =
      pushEdge
        (pushEdge (graph_add_node (graph_add_node g a (-(1/2)) 5).1 b 0 5).1
          (graph_add_node g a (-(1/2)) 5).2
          ⟨(graph_add_node (graph_add_node g a (-(1/2)) 5).1 b 0 5).2, clampW w, pr⟩)
        (graph_add_node (graph_add_node g a (-(1/2)) 5).1 b 0 5).2
        ⟨(graph_add_node g a (-(1/2)) 5).2, clampW w, none⟩ := by
  unfold graph_add_edge
  rw [if_neg hforb]
  dsimp only
  have hstep1 : (match graph_find g a with
      | some u => (g, u)
      | none => graph_add_node g a (-(1/2)) 5) = graph_add_node g a (-(1/2)) 5 := by
    cases hfa : graph_find g a with
    | some u => rw [graph_add_node_found hfa]
    | none => rfl
  rw [hstep1]
  have hstep2 : (match graph_find (graph_add_node g a (-(1/2)) 5).1 b with
      | some v => ((graph_add_node g a (-(1/2)) 5).1, v)
      | none => graph_add_node (graph_add_node g a (-(1/2)) 5).1 b 0 5) =
      graph_add_node (graph_add_node g a (-(1/2)) 5).1 b 0 5 := by
    cases hfb : graph_find (graph_add_node g a (-(1/2)) 5).1 b with
    | some v => rw [graph_add_node_found hfb]
    | none => rfl
  rw [hstep2]

/-- Full effect of a non-forbidden `graph_add_edge` on distinct valid names:
both endpoints end up present (auto-created if missing), the forward edge is
appended to the source's list with the clamped weight and the given
procedure, and the mirror edge is appended to the target's list with the
clamped weight and no procedure. -/
theorem graph_add_edge_effect (g : EmotionGraph) (a b : String) (w : ℚ) (pr : Option String)
    (hforb : ¬ (a = "overwhelmed" ∧ is_positive_goal_name b = true))
    (ha : a.toList.length ≤ 47) (hb : b.toList.length ≤ 47) (hab : a ≠ b) :
    ∃ u v nu nv,
      u ≠ v ∧
      graph_find (graph_add_edge g a b w pr) a = some u ∧
      graph_find (graph_add_edge g a b w pr) b = some v ∧
      (graph_add_edge g a b w pr).nodes[u]? = some nu ∧
      (graph_add_edge g a b w pr).nodes[v]? = some nv ∧
      nu.name = a ∧ nv.name = b ∧
      nu.edges.getLast? = some ⟨v, clampW w, pr⟩ ∧
      nv.edges.getLast? = some ⟨u, clampW w, none⟩ := by
  set p1 := graph_add_node g a (-(1/2)) 5 with hp1
  set p2 := graph_add_node p1.1 b 0 5 with hp2
  have h1 : graph_find p1.1 a = some p1.2 := graph_add_node_find_self _ _ ha
  have h2 : graph_find p2.1 b = some p2.2 := graph_add_node_find_self _ _ hb
  have h3 : graph_find p2.1 a = some p1.2 := by
    rw [hp2, graph_add_node_find_other _ _ hab hb]
    exact h1
  obtain ⟨nu0, hnu0, hnua⟩ := graph_find_name h3
  obtain ⟨nv0, hnv0, hnvb⟩ := graph_find_name h2
  have huv : p1.2 ≠ p2.2 := by
    intro he
    rw [he, hnv0] at hnu0
    apply hab
    rw [← hnua, ← hnvb, Option.some_inj.mp hnu0]
  refine ⟨p1.2, p2.2, { nu0 with edges := nu0.edges ++ [⟨p2.2, clampW w, pr⟩] },
    { nv0 with edges := nv0.edges ++ [⟨p1.2, clampW w, none⟩] }, huv, ?_, ?_, ?_, ?_,
    hnua, hnvb, ?_, ?_⟩
  · rw [graph_add_edge_eq g a b w pr hforb, graph_find_pushEdge, graph_find_pushEdge]
    exact h3
  · rw [graph_add_edge_eq g a b w pr hforb, graph_find_pushEdge, graph_find_pushEdge]
    exact h2
  · rw [graph_add_edge_eq g a b w pr hforb,
      pushEdge_other _ (fun h => huv h.symm), pushEdge_self _ hnu0]
  · rw [graph_add_edge_eq g a b w pr hforb,
      pushEdge_self _ (by rw [pushEdge_other _ huv]; exact hnv0)]
  · simp
  · simp

lemma clampW_eq_max (w : ℚ) : clampW w = max 0 w := by
  unfold clampW
  rcases lt_or_le w 0 with h | h
  · rw [if_pos h, max_eq_left h.le]
  · rw [if_neg (not_lt.mpr h), max_eq_right h]

lemma is_positive_goal_name_cases {p : String} (h : is_positive_goal_name p = true) :
    p = "happy" ∨ p = "calm" ∨ p = "hopeful" ∨ p = "peaceful" := by
  unfold is_positive_goal_name at h
  simp [Bool.or_eq_true, decide_eq_true_iff] at h
  tauto

/-- Single-call append behaviour of `graph_add_edge` when both endpoints are
already present: exactly one forward copy on the source list, one mirror copy
on the target list, all other nodes untouched, and lookups unchanged. -/
lemma graph_add_edge_append {g : EmotionGraph} {a b : String} {u v : Nat}
    {nu nv : EmotionNode} (w : ℚ) (pr : Option String)
    (hforb : ¬ (a = "overwhelmed" ∧ is_positive_goal_name b = true))
    (hu : graph_find g a = some u) (hv : graph_find g b = some v) (huv : u ≠ v)
    (hnu : g.nodes[u]? = some nu) (hnv : g.nodes[v]? = some nv) :
    (graph_add_edge g a b w pr).nodes[u]? =
        some { nu with edges := nu.edges ++ [⟨v, clampW w, pr⟩] } ∧
    (graph_add_edge g a b w pr).nodes[v]? =
        some { nv with edges := nv.edges ++ [⟨u, clampW w, none⟩] } ∧
    (∀ j, j ≠ u → j ≠ v → (graph_add_edge g a b w pr).nodes[j]? = g.nodes[j]?) ∧
    graph_find (graph_add_edge g a b w pr) a = some u ∧
    graph_find (graph_add_edge g a b w pr) b = some v := by
  have heq := graph_add_edge_eq g a b w pr hforb
  rw [graph_add_node_found hu] at heq
  rw [graph_add_node_found hv] at heq
  dsimp only at heq
  refine ⟨?_, ?_, ?_, ?_, ?_⟩
  · rw [heq, pushEdge_other _ (fun h => huv h.symm), pushEdge_self _ hnu]
  · rw [heq, pushEdge_self _ (by rw [pushEdge_other _ huv]; exact hnv)]
  · intro j hju hjv
    rw [heq, pushEdge_other _ (fun h => hjv h.symm), pushEdge_other _ (fun h => hju h.symm)]
  · rw [heq, graph_find_pushEdge, graph_find_pushEdge]; exact hu
  · rw [heq, graph_find_pushEdge, graph_find_pushEdge]; exact hv

/-- `n` repetitions of the same `graph_add_edge` call. -/
def iterAddEdge (g : EmotionGraph) (a b : String) (w : ℚ) (pr : Option String) : Nat → EmotionGraph
  | 0 => g
  | n + 1 => graph_add_edge (iterAddEdge g a b w pr n) a b w pr

/-- A bare two-node example graph used by concrete witnesses. -/
def sadNode : EmotionNode :=
  { name := "sad", valence := 0, baseline_intensity := 5, edges := [], tips := [] }

/-- Companion node of `sadNode` in the two-node example graph. -/
def calmNode : EmotionNode :=
  { name := "calm", valence := 0, baseline_intensity := 5, edges := [], tips := [] }

/-! ### Claim theorems on the graph store -/

/-- C4: for every graph state, weight and procedure, `graph_add_edge` from
"overwhelmed" to any of happy/calm/hopeful/peaceful leaves the graph
completely unchanged: no edge in either direction, no endpoint auto-created,
edge count unchanged, no error. -/
theorem C4_forbidden_noop (g : EmotionGraph) (toName : String) (w : ℚ) (pr : Option String)
    (h : is_positive_goal_name toName = true) :
    graph_add_edge g "overwhelmed" toName w pr = g := by
  unfold graph_add_edge
  rw [if_pos ⟨rfl, h⟩]

theorem C4_forbidden_noop_witness :
    is_positive_goal_name "happy" = true ∧
    graph_add_edge graph_new "overwhelmed" "happy" 3 (some "cheer up") = graph_new :=
  ⟨by decide, C4_forbidden_noop graph_new "happy" 3 (some "cheer up") (by decide)⟩

/-- C5: for valid distinct node names `a`, `b` not hitting the forbidden
rule, `graph_add_edge` creates the forward edge `a → b` carrying the given
procedure and the reverse edge `b → a` carrying no procedure, both storing
the clamped weight `max 0 w`. -/
theorem C5_mirrored_clamped (g : EmotionGraph) (a b : String) (w : ℚ) (pr : Option String)
    (ha : a.toList.length ≤ 47) (hb : b.toList.length ≤ 47) (hab : a ≠ b)
    (hforb : ¬ (a = "overwhelmed" ∧ is_positive_goal_name b = true)) :
    ∃ u v nu nv,
      u ≠ v ∧
      graph_find (graph_add_edge g a b w pr) a = some u ∧
      graph_find (graph_add_edge g a b w pr) b = some v ∧
      (graph_add_edge g a b w pr).nodes[u]? = some nu ∧
      (graph_add_edge g a b w pr).nodes[v]? = some nv ∧
      nu.edges.getLast? = some ⟨v, max 0 w, pr⟩ ∧
      nv.edges.getLast? = some ⟨u, max 0 w, none⟩ := by
  obtain ⟨u, v, nu, nv, huv, hfa, hfb, hgu, hgv, _, _, hlu, hlv⟩ :=
    graph_add_edge_effect g a b w pr hforb ha hb hab
  rw [clampW_eq_max] at hlu hlv
  exact ⟨u, v, nu, nv, huv, hfa, hfb, hgu, hgv, hlu, hlv⟩

theorem C5_mirrored_clamped_witness :
    ∃ u v nu nv,
      u ≠ v ∧
      graph_find (graph_add_edge graph_new "sad" "calmer" (-5) (some "breathe")) "sad" = some u ∧
      graph_find (graph_add_edge graph_new "sad" "calmer" (-5) (some "breathe")) "calmer" = some v ∧
      (graph_add_edge graph_new "sad" "calmer" (-5) (some "breathe")).nodes[u]? = some nu ∧
      (graph_add_edge graph_new "sad" "calmer" (-5) (some "breathe")).nodes[v]? = some nv ∧
      nu.edges.getLast? = some ⟨v, max 0 (-5), some "breathe"⟩ ∧
      nv.edges.getLast? = some ⟨u, max 0 (-5), none⟩ :=
  C5_mirrored_clamped graph_new "sad" "calmer" (-5) (some "breathe")
    (by decide) (by decide) (by decide) (by decide)

/-- C9: for every positive-goal name `p`, `graph_add_edge p "overwhelmed"`
is not blocked and creates, besides the forward edge, the mirror edge
overwhelmed → p with the clamped weight and no procedure, so a direct
overwhelmed → positive edge can exist in the graph. -/
theorem C9_policy_bypass (g : EmotionGraph) (p : String) (w : ℚ) (pr : Option String)
    (hp : is_positive_goal_name p = true) :
    ∃ u v nu nv,
      u ≠ v ∧
      graph_find (graph_add_edge g p "overwhelmed" w pr) p = some u ∧
      graph_find (graph_add_edge g p "overwhelmed" w pr) "overwhelmed" = some v ∧
      (graph_add_edge g p "overwhelmed" w pr).nodes[u]? = some nu ∧
      (graph_add_edge g p "overwhelmed" w pr).nodes[v]? = some nv ∧
      nu.name = p ∧ nv.name = "overwhelmed" ∧
      nu.edges.getLast? = some ⟨v, max 0 w, pr⟩ ∧
      nv.edges.getLast? = some ⟨u, max 0 w, none⟩ := by
  have hcases := is_positive_goal_name_cases hp
  have ha : p.toList.length ≤ 47 := by
    rcases hcases with h | h | h | h <;> subst h <;> decide
  have hab : p ≠ "overwhelmed" := by
    rcases hcases with h | h | h | h <;> subst h <;> decide
  have hforb : ¬ (p = "overwhelmed" ∧ is_positive_goal_name "overwhelmed" = true) := by
    intro hcontra
    exact absurd hcontra.2 (by decide)
  obtain ⟨u, v, nu, nv, huv, hfa, hfb, hgu, hgv, hna, hnb, hlu, hlv⟩ :=
    graph_add_edge_effect g p "overwhelmed" w pr hforb ha (by decide) hab
  rw [clampW_eq_max] at hlu hlv
  exact ⟨u, v, nu, nv, huv, hfa, hfb, hgu, hgv, hna, hnb, hlu, hlv⟩

theorem C9_policy_bypass_witness :
    ∃ u v nu nv,
      u ≠ v ∧
      graph_find (graph_add_edge graph_new "happy" "overwhelmed" 2 none) "happy" = some u ∧
      graph_find (graph_add_edge graph_new "happy" "overwhelmed" 2 none) "overwhelmed" = some v ∧
      (graph_add_edge graph_new "happy" "overwhelmed" 2 none).nodes[u]? = some nu ∧
      (graph_add_edge graph_new "happy" "overwhelmed" 2 none).nodes[v]? = some nv ∧
      nu.name = "happy" ∧ nv.name = "overwhelmed" ∧
      nu.edges.getLast? = some ⟨v, max 0 2, none⟩ ∧
      nv.edges.getLast? = some ⟨u, max 0 2, none⟩ :=
  C9_policy_bypass graph_new "happy" 2 none (by decide)

/-- C10: `graph_add_edge` is not idempotent: with both endpoints present and
the pair not forbidden, every call appends one more forward copy to the
source's list and one more mirror copy to the target's list, even when such
an edge already exists; `n` identical calls leave exactly `n` parallel
copies in each direction. -/
theorem C10_not_idempotent (g : EmotionGraph) (a b : String) (w : ℚ) (pr : Option String)
    (u v : Nat) (nu nv : EmotionNode)
    (hforb : ¬ (a = "overwhelmed" ∧ is_positive_goal_name b = true))
    (hu : graph_find g a = some u) (hv : graph_find g b = some v) (huv : u ≠ v)
    (hnu : g.nodes[u]? = some nu) (hnv : g.nodes[v]? = some nv) :
    ∀ n : Nat,
      (iterAddEdge g a b w pr n).nodes[u]? =
          some { nu with edges := nu.edges ++ List.replicate n ⟨v, clampW w, pr⟩ } ∧
      (iterAddEdge g a b w pr n).nodes[v]? =
          some { nv with edges := nv.edges ++ List.replicate n ⟨u, clampW w, none⟩ } := by
  have key : ∀ n : Nat,
      (iterAddEdge g a b w pr n).nodes[u]? =
          some { nu with edges := nu.edges ++ List.replicate n ⟨v, clampW w, pr⟩ } ∧
      (iterAddEdge g a b w pr n).nodes[v]? =
          some { nv with edges := nv.edges ++ List.replicate n ⟨u, clampW w, none⟩ } ∧
      graph_find (iterAddEdge g a b w pr n) a = some u ∧
      graph_find (iterAddEdge g a b w pr n) b = some v := by
    intro n
    induction n with
    | zero => exact ⟨by simpa using hnu, by simpa using hnv, hu, hv⟩
    | succ n ih =>
        obtain ⟨ihu, ihv, ihfa, ihfb⟩ := ih
        obtain ⟨stepu, stepv, _, stepfa, stepfb⟩ :=
          graph_add_edge_append w pr hforb ihfa ihfb huv ihu ihv
        refine ⟨?_, ?_, stepfa, stepfb⟩
        · rw [show iterAddEdge g a b w pr (n + 1) =
            graph_add_edge (iterAddEdge g a b w pr n) a b w pr from rfl, stepu]
          simp [List.replicate_succ']
        · rw [show iterAddEdge g a b w pr (n + 1) =
            graph_add_edge (iterAddEdge g a b w pr n) a b w pr from rfl, stepv]
          simp [List.replicate_succ']
  exact fun n => ⟨(key n).1, (key n).2.1⟩

theorem C10_not_idempotent_witness :
    (iterAddEdge ⟨[sadNode, calmNode]⟩ "sad" "calm" 2 none 3).nodes[0]? =
        some { sadNode with edges := sadNode.edges ++ List.replicate 3 ⟨1, clampW 2, none⟩ } ∧
    (iterAddEdge ⟨[sadNode, calmNode]⟩ "sad" "calm" 2 none 3).nodes[1]? =
        some { calmNode with edges := calmNode.edges ++ List.replicate 3 ⟨0, clampW 2, none⟩ } :=
  C10_not_idempotent ⟨[sadNode, calmNode]⟩ "sad" "calm" 2 none 0 1 sadNode calmNode
    (by decide) (by decide) (by decide) (by decide) (by decide) (by decide) 3

/-! ### Claims about the planner's edge-cost formula -/

/-- Modelled from the spec: the spec describes the personalized cost as the
edge's base (clamped) weight multiplied by 0.85 when the target node has at
least one tip, then by 0.80 when the edge carries a procedure, then by
`(1 − (1 − valence(V)) × 0.05)`, the three factors composing by plain
multiplication in that order. -/
def spec_adjusted_weight (g : EmotionGraph) (e : Edge) : ℚ :=
  e.weight
    * (if 0 < (g.nodes.getD e.toIdx dummyNode).tips.length then 85/100 else 1)
    * (if e.procedure.isSome then 8/10 else 1)
    * (1 - (1 - (g.nodes.getD e.toIdx dummyNode).valence) * (5/100))

/-- C3: the adjusted weight the relaxation step compares against the best
known tentative cost (it is `relaxEdge`'s `alt` summand by definition) is
exactly the spec's three-factor product over the stored base weight. -/
theorem C3_personalized_cost (g : EmotionGraph) (e : Edge) :
    adjusted_weight g e = spec_adjusted_weight g e := by
  unfold adjusted_weight spec_adjusted_weight
  dsimp only
  split_ifs <;> ring

/-- The 4-node chain of the spec's Dijkstra test: nodes A, B, C, D at
valence 0, no tips, edges A–B, B–C, C–D of weight 1 without procedures,
built through `graph_add_edge` (hence mirrored). -/
def chainABCD : EmotionGraph :=
  let g0 := (graph_add_node graph_new "A" 0 5).1
  let g1 := (graph_add_node g0 "B" 0 5).1
  let g2 := (graph_add_node g1 "C" 0 5).1
  let g3 := (graph_add_node g2 "D" 0 5).1
  let g4 := graph_add_edge g3 "A" "B" 1 none
  let g5 := graph_add_edge g4 "B" "C" 1 none
  graph_add_edge g5 "C" "D" 1 none

/-- C2 counterexample: on the chain the planner's total cost is not 3 — the
valence bias `(1 − (1 − 0)·0.05) = 0.95` applies on every edge even at
valence 0, so the cost is 3·0.95 = 2.85. -/
theorem C2_cost_not_three :
    (run_dijkstra_personalized chainABCD 0 3).map Prod.fst ≠ some 3 := by
  with_unfolding_all decide

/-- C2 amended: on the 4-node chain the planner run from A with goal D
returns the path [A, B, C, D], but with total cost 57/20 = 2.85 — each
unit edge contributes 0.95 because the valence bias is active at
valence 0. -/
theorem C2_chain_plan :
    run_dijkstra_personalized chainABCD 0 3 = some (57/20, [0, 1, 2, 3]) := by
  with_unfolding_all decide

/-- C6 counterexample: an edge whose procedure text is empty (procedure
present but "") does receive the 0.80 discount: with base weight 1,
target valence 0 and no tips the adjusted weight is 0.8 · 0.95 = 19/25,
not the undiscounted 0.95 = 19/20. -/
theorem C6_empty_proc_gets_discount :
    adjusted_weight ⟨[sadNode, calmNode]⟩ ⟨1, 1, some ""⟩ = 19/25 ∧
    (19/25 : ℚ) ≠ 19/20 := by
  constructor
  · with_unfolding_all decide
  · with_unfolding_all decide

/-- C6 amended: for every graph and every edge, the 0.80 multiplier is
applied exactly when the procedure is present (non-NULL), regardless of its
text — absent procedures get factor 1, present procedures (empty text
included, as produced by reloading an edge whose absent procedure was saved
as `""`) get factor 0.80. -/
theorem C6_discount_iff_present (g : EmotionGraph) (e : Edge) :
    adjusted_weight g e =
      e.weight
        * (if 0 < (g.nodes.getD e.toIdx dummyNode).tips.length then 85/100 else 1)
        * (if e.procedure.isSome then 8/10 else 1)
        * (1 - (1 - (g.nodes.getD e.toIdx dummyNode).valence) * (5/100)) := by
  unfold adjusted_weight
  dsimp only
  split_ifs <;> ring

/-! ### Claim C7: no-path versus invalid indices -/

/-- Reachability along stored adjacency edges, independent of the planner:
the target of any edge of a reached node is reached. -/
inductive Reaches (g : EmotionGraph) : Nat → Nat → Prop
  | refl (u : Nat) : Reaches g u u
  | step {u v w : Nat} : Reaches g u v →
      (∃ e ∈ (g.nodes.getD v dummyNode).edges, e.toIdx = w) → Reaches g u w

/-- Soundness of tentative distances: a finite entry means the node is
reachable from the source. -/
def distSound (g : EmotionGraph) (s : Nat) (st : DState) : Prop :=
  ∀ v, (st.dist.getD v none).isSome = true → Reaches g s v

lemma getD_set_cases {α : Type _} (l : List α) (i j : Nat) (a d : α) :
    (l.set i a).getD j d = if i = j ∧ i < l.length then a else l.getD j d := by
  rw [List.getD_eq_getElem?_getD, List.getD_eq_getElem?_getD, List.getElem?_set]
  by_cases hij : i = j
  · subst hij
    by_cases hi : i < l.length
    · simp [hi]
    · simp [hi, List.getElem?_eq_none (le_of_not_lt hi)]
  · simp [hij]

lemma relaxEdge_sound {g : EmotionGraph} {s u : Nat} {st : DState} {e : Edge}
    (hst : distSound g s st) (he : e ∈ (g.nodes.getD u dummyNode).edges) :
    distSound g s (relaxEdge g u st e) := by
  unfold relaxEdge
  dsimp only
  by_cases hvis : st.visited.getD e.toIdx false = true
  · rw [if_pos hvis]
    exact hst
  · rw [if_neg hvis]
    cases hdu : st.dist.getD u none with
    | none => exact hst
    | some du =>
        dsimp only
        by_cases hlt : ltD (some (du + adjusted_weight g e)) (st.dist.getD e.toIdx none) = true
        · rw [if_pos hlt]
          intro v hsome
          dsimp only at hsome
          rw [getD_set_cases] at hsome
          by_cases hcase : e.toIdx = v ∧ e.toIdx < st.dist.length
          · have hru : Reaches g s u := hst u (by rw [hdu]; rfl)
            exact hcase.1 ▸ Reaches.step hru ⟨e, he, rfl⟩
          · rw [if_neg hcase] at hsome
            exact hst v hsome
        · rw [if_neg hlt]
          exact hst

lemma foldl_relaxEdge_sound {g : EmotionGraph} {s u : Nat} (l : List Edge)
    (hsub : ∀ e ∈ l, e ∈ (g.nodes.getD u dummyNode).edges) :
    ∀ st : DState, distSound g s st → distSound g s (l.foldl (relaxEdge g u) st) := by
  induction l with
  | nil => intro st hst; exact hst
  | cons e l ih =>
      intro st hst
      exact ih (fun x hx => hsub x (List.mem_cons_of_mem e hx))
        (relaxEdge g u st e) (relaxEdge_sound hst (hsub e (List.mem_cons_self e l)))

lemma relaxAll_sound {g : EmotionGraph} {s u : Nat} {st : DState}
    (hst : distSound g s st) : distSound g s (relaxAll g u st) :=
  foldl_relaxEdge_sound _ (fun _ hx => hx) st hst

lemma dijkstraLoop_sound (g : EmotionGraph) (s dest : Nat) :
    ∀ (fuel : Nat) (st : DState), distSound g s st →
      distSound g s (dijkstraLoop g dest fuel st) := by
  intro fuel
  induction fuel with
  | zero => intro st hst; exact hst
  | succ fuel ih =>
      intro st hst
      rw [dijkstraLoop]
      cases hpick : pickMin st.dist st.visited with
      | none => exact hst
      | some u =>
          dsimp only
          have hst1 : distSound g s { st with visited := st.visited.set u true } := hst
          by_cases hdest : u = dest
          · rw [if_pos hdest]; exact hst1
          · rw [if_neg hdest]; exact ih _ (relaxAll_sound hst1)

lemma init_sound (g : EmotionGraph) (s n : Nat) :
    distSound g s
      { dist := (List.replicate n (none : Option ℚ)).set s (some 0),
        visited := List.replicate n false,
        prev := List.replicate n (none : Option Nat) } := by
  intro v hsome
  dsimp only at hsome
  rw [getD_set_cases] at hsome
  by_cases hcase : s = v ∧ s < (List.replicate n (none : Option ℚ)).length
  · exact hcase.1 ▸ Reaches.refl s
  · rw [if_neg hcase] at hsome
    rw [List.getD_eq_getElem?_getD, List.getElem?_replicate] at hsome
    split at hsome <;> simp at hsome

/-- C7 counterexample: an invalid (negative) source index produces exactly
the same "no path" outcome as a genuinely unreachable destination — it is
not distinguished and does not fail fast. -/
theorem C7_invalid_same_as_no_path :
    run_dijkstra_personalized ⟨[sadNode, calmNode]⟩ (-1) 0 =
      run_dijkstra_personalized ⟨[sadNode, calmNode]⟩ 0 1 ∧
    run_dijkstra_personalized ⟨[sadNode, calmNode]⟩ (-1) 0 = none := by
  constructor <;> with_unfolding_all decide

/-- C7 amended: when the destination is unreachable from the source the
planner signals "no path" (`none`, modelling the C `FLT_MAX` return with the
output path left unwritten) without crashing and without returning a partial
path; an invalid (negative) source or destination index is answered by the
very same "no path" signal rather than failing fast. -/
theorem C7_no_path_signal (g : EmotionGraph) (src dest : Int) :
    (src < 0 ∨ dest < 0 → run_dijkstra_personalized g src dest = none) ∧
    (0 ≤ src → 0 ≤ dest → ¬ Reaches g src.toNat dest.toNat →
      run_dijkstra_personalized g src dest = none) := by
  constructor
  · intro h
    unfold run_dijkstra_personalized
    rw [if_pos h]
  · intro hs hd hr
    unfold run_dijkstra_personalized
    rw [if_neg (by omega)]
    dsimp only
    have hsound :
        distSound g src.toNat
          (dijkstraLoop g dest.toNat g.nodes.length
            { dist := (List.replicate g.nodes.length (none : Option ℚ)).set src.toNat (some 0),
              visited := List.replicate g.nodes.length false,
              prev := List.replicate g.nodes.length (none : Option Nat) }) :=
      dijkstraLoop_sound g src.toNat dest.toNat g.nodes.length _
        (init_sound g src.toNat g.nodes.length)
    cases hfinal : (dijkstraLoop g dest.toNat g.nodes.length
        { dist := (List.replicate g.nodes.length (none : Option ℚ)).set src.toNat (some 0),
          visited := List.replicate g.nodes.length false,
          prev := List.replicate g.nodes.length (none : Option Nat) }).dist.getD
          dest.toNat none with
    | none => rfl
    | some c =>
        exact absurd (hsound dest.toNat (by rw [hfinal]; rfl)) hr

lemma not_reaches_isolated : ¬ Reaches ⟨[sadNode, calmNode]⟩ 0 1 := by
  intro h
  have key : ∀ v, Reaches ⟨[sadNode, calmNode]⟩ 0 v → v = 0 := by
    intro v hv
    induction hv with
    | refl => rfl
    | step hprev hedge ih =>
        obtain ⟨e, he, _⟩ := hedge
        rw [ih] at he
        simp [sadNode, List.getD] at he
  exact one_ne_zero (key 1 h)

theorem C7_no_path_signal_witness :
    run_dijkstra_personalized ⟨[sadNode, calmNode]⟩ (-2) 0 = none ∧
    run_dijkstra_personalized ⟨[sadNode, calmNode]⟩ 0 1 = none :=
  ⟨(C7_no_path_signal ⟨[sadNode, calmNode]⟩ (-2) 0).1 (Or.inl (by decide)),
   (C7_no_path_signal ⟨[sadNode, calmNode]⟩ 0 1).2 (by decide) (by decide)
     (by simpa using not_reaches_isolated)⟩

/-! ### Persistence codec (`save_graph` / `load_graph`)

`save_graph` produces the record lines `fprintf` emits (each a `List Char`,
without the terminating newline) and `save_file` the written character
stream, each line followed by the `fputc('\n', f)` terminator.  The loader
is modelled at the same level as the C code: `fgetsChunk` is one
`fgets(line, 1024, f)` call (at most 1023 characters, stopping after a
newline), `chopNL` the `line[ln-1]='\0'` trailing-newline strip, `load_line`
the body of the `while (fgets(...))` loop, and `load_graph` the loop itself
over the raw stream.  The libc numeral primitives (`%.3f` printing,
`%f` / `atof` parsing) are modelled for the plain fixed-point numerals the
saver emits, with C `float` idealized as `ℚ`: printing rounds to 3
decimals (`round3q`). -/

/-- Decimal digit character. -/
def digitChar : Nat → Char
  | 0 => '0' | 1 => '1' | 2 => '2' | 3 => '3' | 4 => '4'
  | 5 => '5' | 6 => '6' | 7 => '7' | 8 => '8' | 9 => '9'
  | _ => '*'

/-- Little-endian digit expansion with explicit fuel (structural, so that
concrete save files evaluate inside the kernel). -/
def natToCharsAux : Nat → Nat → List Char
  | 0, _ => []
  | fuel + 1, n => if n = 0 then [] else digitChar (n % 10) :: natToCharsAux fuel (n / 10)

/-- Decimal notation of a natural number, as printf prints it. -/
def natToChars (n : Nat) : List Char :=
  if n = 0 then ['0'] else (natToCharsAux n n).reverse

/-- Exactly three digits with leading zeros: the fractional part of `%.3f`. -/
def pad3 (n : Nat) : List Char :=
  [digitChar (n / 100 % 10), digitChar (n / 10 % 10), digitChar (n % 10)]

/-- `%.3f`: sign, integer digits, point, three fractional digits, after
rounding the value to the nearest multiple of 1/1000. -/
def fmt3 (q : ℚ) : List Char :=
  let m : ℤ := round (q * 1000)
  (if m < 0 then ['-'] else []) ++ natToChars (m.natAbs / 1000) ++ '.' :: pad3 (m.natAbs % 1000)

/-- The rational a `%.3f`-printed value denotes: the input rounded to three
decimal places. -/
def round3q (q : ℚ) : ℚ := (round (q * 1000) : ℤ) / 1000

/-- Numeric value of a big-endian digit string. -/
def natOfDigits (l : List Char) : Nat :=
  l.foldl (fun a c => 10 * a + (c.toNat - 48)) 0

/-- Unsigned part of a fixed-point numeral: integer digits, then optionally
a point and fraction digits, nothing else. -/
def parseBody (sgn : ℚ) (t : List Char) : Option ℚ :=
  let ds := t.takeWhile Char.isDigit
  let r1 := t.dropWhile Char.isDigit
  match r1 with
  | '.' :: r2 =>
      let fs := r2.takeWhile Char.isDigit
      if (ds.isEmpty ∧ fs.isEmpty) ∨ ¬ (r2.dropWhile Char.isDigit).isEmpty then none
      else some (sgn * ((natOfDigits ds : ℚ) + (natOfDigits fs : ℚ) / 10 ^ fs.length))
  | [] => if ds.isEmpty then none else some (sgn * (natOfDigits ds : ℚ))
  | _ => none

/-- Fixed-point numeral parsing: models what the C library (`atof`,
`sscanf %f`) computes on the numerals `fmt3` emits — optional sign, integer
digits, optional point and fraction digits; anything else is a parse
failure. -/
def parseF? (s : List Char) : Option ℚ :=
  match s with
  | '-' :: r => parseBody (-1) r
  | '+' :: r => parseBody 1 r
  | _ => parseBody 1 s

/-- `atof`: 0.0 on parse failure. -/
def atofQ (s : List Char) : ℚ := (parseF? s).getD 0

/-- `isspace` of the C locale. -/
def isWS (c : Char) : Bool :=
  c = ' ' ∨ c = '\t' ∨ c = '\n' ∨ c = '\x0b' ∨ c = '\x0c' ∨ c = '\r'

/-- Accumulator worker of `words`. -/
def wordsAux : List Char → List Char → List (List Char)
  | [], acc => if acc.isEmpty then [] else [acc.reverse]
  | c :: cs, acc =>
      if isWS c then
        if acc.isEmpty then wordsAux cs [] else acc.reverse :: wordsAux cs []
      else wordsAux cs (c :: acc)

/-- Whitespace-separated words of a line, as the loader's `sscanf`/`strtok`
calls tokenize it. -/
def words (s : List Char) : List (List Char) := wordsAux s []

/-- The loader's valence overwrite `g->nodes[idx].valence = atof(tok)`
(a no-op when the name is absent, which cannot happen right after the
`graph_add_node` the loader just performed). -/
def setValenceByName (g : EmotionGraph) (name : String) (v : ℚ) : EmotionGraph :=
  match graph_find g name with
  | none => g
  | some i =>
      match g.nodes[i]? with
      | none => g
      | some n => ⟨g.nodes.set i { n with valence := v }⟩

/-- The loader's baseline overwrite, analogous to `setValenceByName`. -/
def setBaselineByName (g : EmotionGraph) (name : String) (b : ℚ) : EmotionGraph :=
  match graph_find g name with
  | none => g
  | some i =>
      match g.nodes[i]? with
      | none => g
      | some n => ⟨g.nodes.set i { n with baseline_intensity := b }⟩

/-- One iteration of the `load_graph` line loop (C lines 356–395): trim,
skip blank/comment lines, dispatch on the first word.  `NODE` adds the node
then overwrites valence/baseline from the remaining tokens (`strtok`/`atof`);
`TIP` adds the tip parsed from the first quote onward; `EDGE` reads two
names, a weight (sscanf `%f`, default 1.0 when missing or unparsable) and an
optional quoted procedure, then calls `graph_add_edge`. -/
def load_line (g : EmotionGraph) (line : List Char) : EmotionGraph :=
  let p := line.dropWhile (fun c => isWS c)
  if p.isEmpty ∨ p.head? = some '#' then g
  else
    let tok := (p.takeWhile (fun c => !(isWS c))).take 31
    if tok = "NODE".toList then
      match (words p).tail with
      | [] => g
      | w1 :: rest =>
          let nameS := String.mk (w1.take 47)
          let g1 := (graph_add_node g nameS 0 5).1
          let g2 := match rest.get? 0 with
            | some t => setValenceByName g1 nameS (atofQ t)
            | none => g1
          match rest.get? 1 with
          | some t => setBaselineByName g2 nameS (atofQ t)
          | none => g2
    else if tok = "TIP".toList then
      match (words p).tail with
      | [] => g
      | w1 :: _ =>
          let emoS := String.mk (w1.take 47)
          let after := ((p.drop 3).dropWhile (fun c => isWS c)).dropWhile (fun c => !(c == '"'))
          match parse_quoted after with
          | some (tip, _) => graph_add_tip g emoS (String.mk tip)
          | none => g
    else if tok = "EDGE".toList then
      match (words p).tail with
      | [] => g
      | [_] => g
      | w1 :: w2 :: rest =>
          let fromS := String.mk (w1.take 47)
          let toS := String.mk (w2.take 47)
          let w : ℚ := match rest.get? 0 with
            | some t => (parseF? t).getD 1
            | none => 1
          let after := ((p.drop 4).dropWhile (fun c => isWS c)).dropWhile (fun c => !(c == '"'))
          let pr : Option String := match parse_quoted after with
            | some (tx, _) => some (String.mk tx)
            | none => none
          graph_add_edge g fromS toS w pr
    else g

/-- The loader's per-line processing folded over a list of already-split
lines: the behaviour of the `load_graph` loop when every `fgets` call
returns one whole newline-terminated line. -/
def loadLines (g : EmotionGraph) (lines : List (List Char)) : EmotionGraph :=
  lines.foldl load_line g

/-- One `fgets(line, sizeof(line), f)` call on the remaining stream, with
`sizeof(line) = MAX_LINE = 1024`: reads at most `fuel` (called with 1023)
characters, stopping after a newline or at end of input; returns the chunk
read and the rest of the stream. -/
def fgetsChunk : Nat → List Char → List Char × List Char
  | 0, rest => ([], rest)
  | _ + 1, [] => ([], [])
  | fuel + 1, c :: cs =>
      if c = '\n' then ([c], cs)
      else (c :: (fgetsChunk fuel cs).1, (fgetsChunk fuel cs).2)

/-- The loader's `if (ln>0 && line[ln-1]=='\n') line[ln-1]='\0';`: strip a
trailing newline from the chunk `fgets` returned. -/
def chopNL (l : List Char) : List Char :=
  if l.getLast? = some '\n' then l.dropLast else l

/-- The `while (fgets(line, sizeof(line), f))` loop of `load_graph`, with
fuel for termination: every `fgets` on a nonempty stream consumes at least
one character, so fuel equal to the stream length never runs out before
end of input. -/
def load_loop : Nat → EmotionGraph → List Char → EmotionGraph
  | 0, g, _ => g
  | _ + 1, g, [] => g
  | fuel + 1, g, c :: cs =>
      load_loop fuel
        (load_line g (chopNL (fgetsChunk 1023 (c :: cs)).1))
        (fgetsChunk 1023 (c :: cs)).2

/-- `load_graph` over an already-opened file, given as its raw character
stream (C lines 352–397): repeatedly `fgets` a chunk of at most 1023
characters, strip its trailing newline, and process it as a line. -/
def load_graph (g : EmotionGraph) (cs : List Char) : EmotionGraph :=
  load_loop cs.length g cs

/-- The `NODE` line `fprintf(f, "NODE %s %.3f %.3f\\n", ...)` emits. -/
def nodeLine (name : String) (v b : ℚ) : List Char :=
  "NODE ".toList ++ name.toList ++ ' ' :: fmt3 v ++ ' ' :: fmt3 b

/-- The `TIP` line: `fprintf(f, "TIP %s ", ...)` followed by the quoted tip. -/
def tipLine (name t : String) : List Char :=
  "TIP ".toList ++ name.toList ++ ' ' :: fwrite_quoted t.toList

/-- The `EDGE` line: names, weight, then the quoted procedure or `""`. -/
def edgeLine (a b : String) (w : ℚ) (pr : Option String) : List Char :=
  "EDGE ".toList ++ a.toList ++ ' ' :: b.toList ++ ' ' :: fmt3 w ++ ' ' ::
    (match pr with
     | some s => fwrite_quoted s.toList
     | none => ['"', '"'])

/-- `save_graph`: first a `NODE` line followed by that node's `TIP` lines,
for each node in order; then for every stored edge whose source index is
strictly below its target index an `EDGE` line carrying the stored weight
and the procedure (absent procedure written as `""`). -/
def save_graph (g : EmotionGraph) : List (List Char) :=
  (g.nodes.flatMap (fun n =>
    nodeLine n.name n.valence n.baseline_intensity :: n.tips.map (tipLine n.name)))
  ++ (g.nodes.enum.flatMap (fun pa =>
      (pa.2.edges.filter (fun e => pa.1 < e.toIdx)).map (fun e =>
        edgeLine pa.2.name (g.nodes.getD e.toIdx dummyNode).name e.weight e.procedure)))

/-- The character stream `save_graph` writes: each record line followed by
its `fputc('\n', f)` terminator. -/
def save_file (g : EmotionGraph) : List Char :=
  (save_graph g).flatMap (fun l => l ++ ['\n'])

/-- A newline-free line of fewer than `n` characters followed by its
newline terminator fits in one `fgets` chunk of capacity `n`. -/
lemma fgetsChunk_line (l : List Char) :
    ∀ (n : Nat) (r : List Char), l.length < n → '\n' ∉ l →
      fgetsChunk n (l ++ '\n' :: r) = (l ++ ['\n'], r) := by
  induction l with
  | nil =>
      intro n r hn _
      cases n with
      | zero => omega
      | succ m =>
          rw [List.nil_append]
          simp [fgetsChunk]
  | cons c l ih =>
      intro n r hn hnl
      cases n with
      | zero => simp at hn
      | succ m =>
          have hc : ¬(c = '\n') := by
            intro hh
            exact hnl (by rw [hh]; exact List.mem_cons_self _ _)
          rw [List.length_cons] at hn
          rw [List.cons_append]
          rw [fgetsChunk, if_neg hc,
            ih m r (by omega) (fun hx => hnl (List.mem_cons_of_mem c hx))]
          rfl

lemma chopNL_concat_nl (l : List Char) : chopNL (l ++ ['\n']) = l := by
  rw [chopNL, List.getLast?_concat, if_pos rfl, List.dropLast_concat]

/-- One unfolding of the loader loop on a nonempty stream. -/
lemma load_loop_step (f : Nat) (g : EmotionGraph) (c : Char) (cs : List Char) :
    load_loop (f + 1) g (c :: cs) =
      load_loop f (load_line g (chopNL (fgetsChunk 1023 (c :: cs)).1))
        (fgetsChunk 1023 (c :: cs)).2 := rfl

/-- On a stream starting with a newline-free line of at most 1022 characters
plus its terminator, the loop reads exactly that line, strips the newline
and processes it. -/
lemma load_loop_line (f : Nat) (g : EmotionGraph) (l r : List Char)
    (hlen : l.length ≤ 1022) (hnl : '\n' ∉ l) :
    load_loop (f + 1) g (l ++ '\n' :: r) = load_loop f (load_line g l) r := by
  have hchunk : fgetsChunk 1023 (l ++ '\n' :: r) = (l ++ ['\n'], r) :=
    fgetsChunk_line l 1023 r (by omega) hnl
  obtain ⟨c, cs, hcs⟩ : ∃ c cs, l ++ '\n' :: r = c :: cs := by
    cases l with
    | nil => exact ⟨'\n', r, by simp⟩
    | cons a as => exact ⟨a, as ++ '\n' :: r, by simp⟩
  rw [hcs, load_loop_step, ← hcs, hchunk]
  rw [chopNL_concat_nl]

/-- A file all of whose lines are newline-free and fit in the 1023-byte
`fgets` buffer together with their terminator is processed line by line. -/
lemma load_loop_lines (ls : List (List Char)) :
    ∀ (fuel : Nat) (g : EmotionGraph),
      (∀ l ∈ ls, l.length ≤ 1022 ∧ '\n' ∉ l) →
      (ls.flatMap (fun l => l ++ ['\n'])).length ≤ fuel →
      load_loop fuel g (ls.flatMap (fun l => l ++ ['\n'])) = loadLines g ls := by
  induction ls with
  | nil =>
      intro fuel g _ _
      rw [List.flatMap_nil]
      cases fuel <;> rfl
  | cons l ls ih =>
      intro fuel g h hfuel
      rw [List.flatMap_cons, List.append_assoc, List.singleton_append] at hfuel ⊢
      have hl := h l (List.mem_cons_self l ls)
      cases fuel with
      | zero =>
          rw [List.length_append, List.length_cons] at hfuel
          omega
      | succ f =>
          rw [load_loop_line f g l _ hl.1 hl.2]
          have := ih f (load_line g l) (fun x hx => h x (List.mem_cons_of_mem l hx))
            (by rw [List.length_append, List.length_cons] at hfuel; omega)
          exact this

/-- Loading the rendered file equals line-by-line processing whenever every
line fits the `fgets` buffer. -/
lemma load_graph_lines (ls : List (List Char)) (g : EmotionGraph)
    (h : ∀ l ∈ ls, l.length ≤ 1022 ∧ '\n' ∉ l) :
    load_graph g (ls.flatMap (fun l => l ++ ['\n'])) = loadLines g ls :=
  load_loop_lines ls _ g h le_rfl

/-! ### Correctness of the numeral codec -/

lemma digitChar_spec (d : Nat) (hd : d < 10) :
    (digitChar d).isDigit = true ∧ (digitChar d).toNat - 48 = d := by
  interval_cases d <;> exact ⟨by decide, by decide⟩

lemma isDigit_clean {c : Char} (h : c.isDigit = true) : isWS c = false ∧ c ≠ '"' := by
  constructor
  · rw [isWS]
    simp only [decide_eq_false_iff_not]
    intro hws
    rcases hws with rfl | rfl | rfl | rfl | rfl | rfl <;> simp [Char.isDigit] at h
  · rintro rfl
    simp [Char.isDigit] at h

/-- Little-endian value of a digit string. -/
def valLE : List Char → Nat
  | [] => 0
  | c :: cs => (c.toNat - 48) + 10 * valLE cs

lemma natOfDigits_concat (l : List Char) (c : Char) :
    natOfDigits (l ++ [c]) = 10 * natOfDigits l + (c.toNat - 48) := by
  simp [natOfDigits, List.foldl_append]

lemma natOfDigits_reverse (l : List Char) : natOfDigits l.reverse = valLE l := by
  induction l with
  | nil => rfl
  | cons c cs ih =>
      rw [List.reverse_cons, natOfDigits_concat, ih, valLE]
      ring

lemma valLE_natToCharsAux : ∀ (fuel n : Nat), n ≤ fuel →
    valLE (natToCharsAux fuel n) = n := by
  intro fuel
  induction fuel with
  | zero =>
      intro n h
      interval_cases n
      rfl
  | succ f ih =>
      intro n h
      rw [natToCharsAux]
      by_cases hn : n = 0
      · simp [hn, valLE]
      · rw [if_neg hn, valLE, (digitChar_spec (n % 10) (Nat.mod_lt n (by omega))).2,
          ih (n / 10) (by omega)]
        omega

lemma natToCharsAux_digits : ∀ (fuel n : Nat), ∀ c ∈ natToCharsAux fuel n,
    c.isDigit = true := by
  intro fuel
  induction fuel with
  | zero => intro n c hc; simp [natToCharsAux] at hc
  | succ f ih =>
      intro n c hc
      rw [natToCharsAux] at hc
      by_cases hn : n = 0
      · simp [hn] at hc
      · rw [if_neg hn] at hc
        rcases List.mem_cons.mp hc with rfl | hc
        · exact (digitChar_spec (n % 10) (Nat.mod_lt n (by omega))).1
        · exact ih (n / 10) c hc

lemma natOfDigits_natToChars (n : Nat) : natOfDigits (natToChars n) = n := by
  unfold natToChars
  by_cases hn : n = 0
  · simp [hn, natOfDigits]
  · rw [if_neg hn, natOfDigits_reverse, valLE_natToCharsAux n n le_rfl]

lemma natToChars_digits (n : Nat) : ∀ c ∈ natToChars n, c.isDigit = true := by
  unfold natToChars
  by_cases hn : n = 0
  · simp [hn]
  · rw [if_neg hn]
    intro c hc
    exact natToCharsAux_digits n n c (List.mem_reverse.mp hc)

lemma natToChars_ne_nil (n : Nat) : natToChars n ≠ [] := by
  unfold natToChars
  by_cases hn : n = 0
  · simp [hn]
  · rw [if_neg hn]
    simp only [ne_eq, List.reverse_eq_nil_iff]
    cases n with
    | zero => exact absurd rfl hn
    | succ m =>
        rw [natToCharsAux, if_neg hn]
        simp

lemma pad3_digits (n : Nat) : ∀ c ∈ pad3 n, c.isDigit = true := by
  intro c hc
  simp only [pad3, List.mem_cons, List.not_mem_nil, or_false] at hc
  rcases hc with rfl | rfl | rfl <;>
    exact (digitChar_spec _ (Nat.mod_lt _ (by omega))).1

lemma natOfDigits_pad3 {n : Nat} (h : n < 1000) : natOfDigits (pad3 n) = n := by
  show 10 * (10 * (10 * 0 + ((digitChar (n / 100 % 10)).toNat - 48))
      + ((digitChar (n / 10 % 10)).toNat - 48)) + ((digitChar (n % 10)).toNat - 48) = n
  rw [(digitChar_spec _ (Nat.mod_lt _ (by omega))).2,
    (digitChar_spec _ (Nat.mod_lt _ (by omega))).2,
    (digitChar_spec _ (Nat.mod_lt _ (by omega))).2]
  omega

lemma fmt3_clean (q : ℚ) : ∀ c ∈ fmt3 q, isWS c = false ∧ c ≠ '"' := by
  intro c hc
  unfold fmt3 at hc
  dsimp only at hc
  rw [List.mem_append] at hc
  rcases hc with hc | hc
  · rw [List.mem_append] at hc
    rcases hc with hc | hc
    · by_cases hm : round (q * 1000) < 0
      · rw [if_pos hm] at hc
        rw [List.mem_singleton] at hc
        subst hc
        exact ⟨by decide, by decide⟩
      · rw [if_neg hm] at hc
        simp at hc
    · exact isDigit_clean (natToChars_digits _ c hc)
  · rcases List.mem_cons.mp hc with rfl | hc
    · exact ⟨by decide, by decide⟩
    · exact isDigit_clean (pad3_digits _ c hc)

lemma fmt3_ne_nil (q : ℚ) : fmt3 q ≠ [] := by
  unfold fmt3
  dsimp only
  simp

lemma takeWhile_all {p : Char → Bool} {l : List Char} (h : ∀ c ∈ l, p c = true) :
    l.takeWhile p = l := by
  have h2 := @List.takeWhile_append_of_pos _ p l [] h
  simpa using h2

lemma dropWhile_all {p : Char → Bool} {l : List Char} (h : ∀ c ∈ l, p c = true) :
    l.dropWhile p = [] := by
  have h2 := @List.dropWhile_append_of_pos _ p l [] h
  simpa using h2

lemma parseBody_intfrac (sgn : ℚ) (I F : List Char)
    (hI : ∀ c ∈ I, c.isDigit = true) (hF : ∀ c ∈ F, c.isDigit = true)
    (hIne : I ≠ []) :
    parseBody sgn (I ++ '.' :: F) =
      some (sgn * ((natOfDigits I : ℚ) + (natOfDigits F : ℚ) / 10 ^ F.length)) := by
  unfold parseBody
  dsimp only
  rw [List.takeWhile_append_of_pos hI, List.dropWhile_append_of_pos hI]
  have hdot : Char.isDigit '.' = false := by decide
  rw [List.takeWhile_cons, hdot, List.dropWhile_cons]
  simp only [hdot, Bool.false_eq_true, if_false, List.append_nil]
  rw [takeWhile_all hF, dropWhile_all hF]
  rw [if_neg]
  intro hcon
  simp only [List.isEmpty_nil, List.isEmpty_iff, not_true, and_false, false_or, not_not,
    not_or] at hcon
  rcases hcon with hcon | hcon
  · exact hIne hcon.1
  · exact hcon


lemma parseF?_fmt3 (q : ℚ) :
    parseF? (fmt3 q) = some (((round (q * 1000) : ℤ) : ℚ) / 1000) := by
  obtain ⟨n, hn⟩ : ∃ n : Nat, (round (q * 1000)).natAbs = n := ⟨_, rfl⟩
  have key : ∀ s : ℚ, s * ((natOfDigits (natToChars (n / 1000)) : ℚ)
      + (natOfDigits (pad3 (n % 1000)) : ℚ) / 10 ^ (pad3 (n % 1000)).length)
      = s * ((n : ℚ) / 1000) := by
    intro s
    rw [natOfDigits_natToChars, natOfDigits_pad3 (Nat.mod_lt _ (by omega))]
    have h3 : (pad3 (n % 1000)).length = 3 := rfl
    rw [h3]
    have hsplit : 1000 * (n / 1000) + n % 1000 = n := Nat.div_add_mod n 1000
    have hsplitQ : 1000 * ((n / 1000 : Nat) : ℚ) + ((n % 1000 : Nat) : ℚ) = (n : ℚ) := by
      exact_mod_cast hsplit
    congr 1
    field_simp
    linarith [hsplitQ]
  by_cases hm : round (q * 1000) < 0
  · have hmq : ((round (q * 1000) : ℤ) : ℚ) = -(n : ℚ) := by
      have : ((n : ℕ) : ℚ) = |((round (q * 1000) : ℤ) : ℚ)| := by
        rw [← hn, Int.cast_natAbs, Int.cast_abs]
      have habs : |((round (q * 1000) : ℤ) : ℚ)| = -((round (q * 1000) : ℤ) : ℚ) :=
        abs_of_neg (by exact_mod_cast hm)
      linarith [this, habs]
    have hfmt : fmt3 q = '-' :: (natToChars (n / 1000) ++ '.' :: pad3 (n % 1000)) := by
      unfold fmt3
      dsimp only
      rw [if_pos hm, hn]
      simp
    rw [hfmt]
    show parseBody (-1) _ = _
    rw [parseBody_intfrac (-1) _ _ (natToChars_digits _) (pad3_digits _) (natToChars_ne_nil _)]
    rw [key (-1), hmq]
    congr 1
    ring
  · have hmq : ((round (q * 1000) : ℤ) : ℚ) = (n : ℚ) := by
      have : ((n : ℕ) : ℚ) = |((round (q * 1000) : ℤ) : ℚ)| := by
        rw [← hn, Int.cast_natAbs, Int.cast_abs]
      have habs : |((round (q * 1000) : ℤ) : ℚ)| = ((round (q * 1000) : ℤ) : ℚ) :=
        abs_of_nonneg (by exact_mod_cast not_lt.mp hm)
      linarith [this, habs]
    have hfmt : fmt3 q = natToChars (n / 1000) ++ '.' :: pad3 (n % 1000) := by
      unfold fmt3
      dsimp only
      rw [if_neg hm, hn]
      simp
    obtain ⟨c0, rest0, hc0⟩ : ∃ c0 rest0, natToChars (n / 1000) = c0 :: rest0 := by
      cases h : natToChars (n / 1000) with
      | nil => exact absurd h (natToChars_ne_nil _)
      | cons a l => exact ⟨a, l, rfl⟩
    have hc0d : c0.isDigit = true := by
      apply natToChars_digits
      rw [hc0]
      exact List.mem_cons_self _ _
    have hc0m : c0 ≠ '-' ∧ c0 ≠ '+' := by
      constructor <;> rintro rfl <;> simp [Char.isDigit] at hc0d
    have hstep : parseF? (c0 :: (rest0 ++ '.' :: pad3 (n % 1000))) =
        parseBody 1 (c0 :: (rest0 ++ '.' :: pad3 (n % 1000))) := by
      rw [parseF?.eq_def]
      simp [hc0m.1, hc0m.2]
    rw [hfmt, hc0, List.cons_append, hstep, ← List.cons_append, ← hc0]
    rw [parseBody_intfrac 1 _ _ (natToChars_digits _) (pad3_digits _) (natToChars_ne_nil _)]
    rw [key 1, hmq]
    congr 1
    ring

lemma atofQ_fmt3 (q : ℚ) : atofQ (fmt3 q) = round3q q := by
  unfold atofQ round3q
  rw [parseF?_fmt3]
  rfl

lemma parseF?_getD_fmt3 (q : ℚ) : (parseF? (fmt3 q)).getD 1 = round3q q := by
  unfold round3q
  rw [parseF?_fmt3]
  rfl

/-! ### Tokenizer lemmas -/

lemma wordsAux_nonws_cons (c : Char) (cs acc : List Char) (hc : isWS c = false) :
    wordsAux (c :: cs) acc = wordsAux cs (c :: acc) := by
  rw [wordsAux, hc]
  simp

lemma wordsAux_ws_cons (c : Char) (cs acc : List Char) (hc : isWS c = true) :
    wordsAux (c :: cs) acc =
      if acc.isEmpty then wordsAux cs [] else acc.reverse :: wordsAux cs [] := by
  rw [wordsAux, hc]
  simp

lemma wordsAux_word (w : List Char) (hw : ∀ c ∈ w, isWS c = false) :
    ∀ (cs acc : List Char), wordsAux (w ++ cs) acc = wordsAux cs (w.reverse ++ acc) := by
  induction w with
  | nil => intro cs acc; simp
  | cons c w ih =>
      intro cs acc
      rw [List.cons_append, wordsAux_nonws_cons c _ _ (hw c (List.mem_cons_self c w)),
        ih (fun x hx => hw x (List.mem_cons_of_mem c hx))]
      simp

lemma words_token_space (w rest : List Char) (hne : w ≠ [])
    (hw : ∀ c ∈ w, isWS c = false) :
    words (w ++ ' ' :: rest) = w :: words rest := by
  unfold words
  rw [wordsAux_word w hw, wordsAux_ws_cons _ _ _ (by decide)]
  rw [if_neg (by simp [hne])]
  simp

lemma words_token_nil (w : List Char) (hne : w ≠ [])
    (hw : ∀ c ∈ w, isWS c = false) : words w = [w] := by
  unfold words
  have := wordsAux_word w hw [] []
  rw [List.append_nil] at this
  rw [this, wordsAux]
  rw [if_neg (by simp [hne])]
  simp

/-- Valid node-name strings: nonempty, within the 47-character stored
capacity, no whitespace, no quote character. -/
def goodName (s : String) : Prop :=
  s.toList ≠ [] ∧ s.toList.length ≤ 47 ∧ ∀ c ∈ s.toList, isWS c = false ∧ c ≠ '"'

/-- Tip/procedure texts the codec handles losslessly: within the parse
buffer, and free of the line separator. -/
def goodText (s : String) : Prop :=
  s.toList.length ≤ 1023 ∧ '\n' ∉ s.toList

instance (s : String) : Decidable (goodName s) := by
  unfold goodName
  infer_instance

instance (s : String) : Decidable (goodText s) := by
  unfold goodText
  infer_instance

lemma nodeLine_canon (name : String) (v b : ℚ) :
    nodeLine name v b =
      "NODE".toList ++ ' ' :: (name.toList ++ ' ' :: (fmt3 v ++ ' ' :: fmt3 b)) := by
  unfold nodeLine
  rw [show "NODE ".toList = ['N', 'O', 'D', 'E', ' '] from rfl,
    show "NODE".toList = ['N', 'O', 'D', 'E'] from rfl]
  simp [List.cons_append, List.append_assoc]

lemma load_prefix (kw rest : List Char) (c0 : Char) (kw' : List Char)
    (hkw : kw = c0 :: kw') (hkwc : ∀ c ∈ kw, isWS c = false) (hkw31 : kw.length ≤ 31) :
    ((kw ++ ' ' :: rest).dropWhile (fun c => isWS c) = kw ++ ' ' :: rest) ∧
    (((kw ++ ' ' :: rest).takeWhile (fun c => !(isWS c))).take 31 = kw) := by
  constructor
  · subst hkw
    rw [List.cons_append, List.dropWhile_cons]
    rw [hkwc c0 (List.mem_cons_self c0 kw')]
    simp
  · rw [List.takeWhile_append_of_pos (by intro a ha; rw [hkwc a ha]; rfl)]
    rw [List.takeWhile_cons]
    rw [show (!(isWS ' ')) = false from rfl]
    simp only [Bool.false_eq_true, if_false, List.append_nil]
    exact List.take_of_length_le hkw31

/-- Parsing effect of a saved `NODE` line: add the node with the loader's
sscanf defaults, then overwrite valence and baseline with the two parsed
(3-decimal rounded) numbers. -/
lemma load_line_NODE (g : EmotionGraph) (name : String) (v b : ℚ) (hn : goodName name) :
    load_line g (nodeLine name v b) =
      setBaselineByName (setValenceByName (graph_add_node g name 0 5).1 name (round3q v))
        name (round3q b) := by
  obtain ⟨hne, h47, hclean⟩ := hn
  rw [nodeLine_canon]
  unfold load_line
  dsimp only
  obtain ⟨hdrop, htok⟩ := load_prefix "NODE".toList
    (name.toList ++ ' ' :: (fmt3 v ++ ' ' :: fmt3 b)) 'N' "ODE".toList rfl
    (by decide) (by decide)
  rw [hdrop, htok]
  rw [if_neg (by simp [show "NODE".toList = 'N' :: "ODE".toList from rfl])]
  rw [if_pos rfl]
  rw [words_token_space _ _ (by decide) (by decide)]
  rw [words_token_space _ _ hne (fun c hc => (hclean c hc).1)]
  rw [words_token_space _ _ (fmt3_ne_nil v) (fun c hc => (fmt3_clean v c hc).1)]
  rw [words_token_nil _ (fmt3_ne_nil b) (fun c hc => (fmt3_clean b c hc).1)]
  dsimp only [List.tail_cons, List.get?]
  rw [List.take_of_length_le h47]
  rw [show ({ data := name.toList } : String) = name from rfl]
  rw [atofQ_fmt3, atofQ_fmt3]

lemma tipLine_canon (name t : String) :
    tipLine name t = "TIP".toList ++ ' ' :: (name.toList ++ ' ' :: fwrite_quoted t.toList) := by
  unfold tipLine
  rw [show "TIP ".toList = ['T', 'I', 'P', ' '] from rfl,
    show "TIP".toList = ['T', 'I', 'P'] from rfl]
  simp [List.cons_append, List.append_assoc]

lemma dropWhile_quote_self (s : List Char) :
    (fwrite_quoted s).dropWhile (fun c => !(c == '"')) = fwrite_quoted s := by
  unfold fwrite_quoted
  rw [List.dropWhile_cons]
  simp

lemma nonquote_true {c : Char} (hc : c ≠ '"') : (!(c == '"')) = true := by
  simp [hc]

/-- Parsing effect of a saved `TIP` line: exactly `graph_add_tip`. -/
lemma load_line_TIP (g : EmotionGraph) (name t : String) (hn : goodName name)
    (ht : t.toList.length ≤ 1023) :
    load_line g (tipLine name t) = graph_add_tip g name t := by
  obtain ⟨hne, h47, hclean⟩ := hn
  rw [tipLine_canon]
  unfold load_line
  dsimp only
  obtain ⟨hdrop, htok⟩ := load_prefix "TIP".toList
    (name.toList ++ ' ' :: fwrite_quoted t.toList) 'T' "IP".toList rfl
    (by decide) (by decide)
  rw [hdrop, htok]
  rw [if_neg (by simp [show "TIP".toList = 'T' :: "IP".toList from rfl])]
  rw [if_neg (by decide), if_pos rfl]
  rw [words_token_space _ _ (by decide) (by decide)]
  rw [words_token_space _ _ hne (fun c hc => (hclean c hc).1)]
  dsimp only [List.tail_cons]
  rw [show ("TIP".toList ++ ' ' :: (name.toList ++ ' ' :: fwrite_quoted t.toList)).drop 3
      = ' ' :: (name.toList ++ ' ' :: fwrite_quoted t.toList) from rfl]
  rw [show (' ' :: (name.toList ++ ' ' :: fwrite_quoted t.toList)).dropWhile
        (fun c => isWS c) = (name.toList ++ ' ' :: fwrite_quoted t.toList).dropWhile
        (fun c => isWS c) from by
    rw [List.dropWhile_cons, show isWS ' ' = true from rfl]
    simp]
  rw [show (name.toList ++ ' ' :: fwrite_quoted t.toList).dropWhile (fun c => isWS c)
      = name.toList ++ ' ' :: fwrite_quoted t.toList from by
    obtain ⟨c1, name', hname⟩ : ∃ c1 name', name.toList = c1 :: name' := by
      cases h : name.toList with
      | nil => exact absurd h hne
      | cons a l => exact ⟨a, l, rfl⟩
    rw [hname, List.cons_append, List.dropWhile_cons]
    rw [(hclean c1 (by rw [hname]; exact List.mem_cons_self _ _)).1]
    simp]
  rw [List.dropWhile_append_of_pos
    (fun c hc => nonquote_true (hclean c hc).2)]
  rw [List.dropWhile_cons]
  rw [show (!(' ' == '"')) = true from rfl]
  rw [if_pos rfl, dropWhile_quote_self]
  have hpq := parse_quoted_fwrite t.toList [] ht
  rw [List.append_nil] at hpq
  rw [hpq]
  dsimp only
  rw [List.take_of_length_le h47]
  rw [show ({ data := name.toList } : String) = name from rfl,
    show ({ data := t.toList } : String) = t from rfl]

lemma edgeLine_canon (a b : String) (w : ℚ) (pr : Option String) :
    edgeLine a b w pr =
      "EDGE".toList ++ ' ' :: (a.toList ++ ' ' :: (b.toList ++ ' ' ::
        (fmt3 w ++ ' ' :: fwrite_quoted (pr.getD "").toList))) := by
  unfold edgeLine
  rw [show (match pr with
      | some s => fwrite_quoted s.toList
      | none => ['"', '"']) = fwrite_quoted (pr.getD "").toList from by cases pr <;> rfl]
  rw [show "EDGE ".toList = ['E', 'D', 'G', 'E', ' '] from rfl,
    show "EDGE".toList = ['E', 'D', 'G', 'E'] from rfl]
  simp [List.cons_append, List.append_assoc]

/-- Parsing effect of a saved `EDGE` line: `graph_add_edge` with the
3-decimal rounded weight and the written procedure text (absent saved as
`""`, hence reloaded as the present-but-empty procedure). -/
lemma load_line_EDGE (g : EmotionGraph) (a b : String) (w : ℚ) (pr : Option String)
    (ha : goodName a) (hb : goodName b) (hpr : (pr.getD "").toList.length ≤ 1023) :
    load_line g (edgeLine a b w pr) = graph_add_edge g a b (round3q w) (some (pr.getD "")) := by
  obtain ⟨hane, ha47, haclean⟩ := ha
  obtain ⟨hbne, hb47, hbclean⟩ := hb
  rw [edgeLine_canon]
  unfold load_line
  dsimp only
  obtain ⟨hdrop, htok⟩ := load_prefix "EDGE".toList
    (a.toList ++ ' ' :: (b.toList ++ ' ' :: (fmt3 w ++ ' ' ::
      fwrite_quoted (pr.getD "").toList))) 'E' "DGE".toList rfl
    (by decide) (by decide)
  rw [hdrop, htok]
  rw [if_neg (by simp [show "EDGE".toList = 'E' :: "DGE".toList from rfl])]
  rw [if_neg (by decide), if_neg (by decide), if_pos rfl]
  rw [words_token_space _ _ (by decide) (by decide)]
  rw [words_token_space _ _ hane (fun c hc => (haclean c hc).1)]
  rw [words_token_space _ _ hbne (fun c hc => (hbclean c hc).1)]
  rw [words_token_space _ _ (fmt3_ne_nil w) (fun c hc => (fmt3_clean w c hc).1)]
  dsimp only [List.tail_cons]
  rw [show ("EDGE".toList ++ ' ' :: (a.toList ++ ' ' :: (b.toList ++ ' ' ::
      (fmt3 w ++ ' ' :: fwrite_quoted (pr.getD "").toList)))).drop 4
      = ' ' :: (a.toList ++ ' ' :: (b.toList ++ ' ' ::
      (fmt3 w ++ ' ' :: fwrite_quoted (pr.getD "").toList))) from rfl]
  rw [show (' ' :: (a.toList ++ ' ' :: (b.toList ++ ' ' ::
      (fmt3 w ++ ' ' :: fwrite_quoted (pr.getD "").toList)))).dropWhile (fun c => isWS c)
      = (a.toList ++ ' ' :: (b.toList ++ ' ' ::
      (fmt3 w ++ ' ' :: fwrite_quoted (pr.getD "").toList))).dropWhile (fun c => isWS c) from by
    rw [List.dropWhile_cons, show isWS ' ' = true from rfl]
    simp]
  rw [show (a.toList ++ ' ' :: (b.toList ++ ' ' ::
      (fmt3 w ++ ' ' :: fwrite_quoted (pr.getD "").toList))).dropWhile (fun c => isWS c)
      = a.toList ++ ' ' :: (b.toList ++ ' ' ::
      (fmt3 w ++ ' ' :: fwrite_quoted (pr.getD "").toList)) from by
    obtain ⟨c1, a', hsa⟩ : ∃ c1 a', a.toList = c1 :: a' := by
      cases h : a.toList with
      | nil => exact absurd h hane
      | cons x l => exact ⟨x, l, rfl⟩
    rw [hsa, List.cons_append, List.dropWhile_cons]
    rw [(haclean c1 (by rw [hsa]; exact List.mem_cons_self _ _)).1]
    simp]
  rw [List.dropWhile_append_of_pos (fun c hc => nonquote_true (haclean c hc).2)]
  rw [List.dropWhile_cons, show (!(' ' == '"')) = true from rfl, if_pos rfl]
  rw [List.dropWhile_append_of_pos (fun c hc => nonquote_true (hbclean c hc).2)]
  rw [List.dropWhile_cons, show (!(' ' == '"')) = true from rfl, if_pos rfl]
  rw [List.dropWhile_append_of_pos (fun c hc => nonquote_true (fmt3_clean w c hc).2)]
  rw [List.dropWhile_cons, show (!(' ' == '"')) = true from rfl, if_pos rfl]
  rw [dropWhile_quote_self]
  have hpq := parse_quoted_fwrite (pr.getD "").toList [] hpr
  rw [List.append_nil] at hpq
  rw [hpq]
  dsimp only
  rw [List.take_of_length_le ha47, List.take_of_length_le hb47]
  rw [show ({ data := a.toList } : String) = a from rfl,
    show ({ data := b.toList } : String) = b from rfl,
    show ({ data := (pr.getD "").toList } : String) = pr.getD "" from rfl]
  rw [show ((fmt3 w :: words (fwrite_quoted (pr.getD "").toList)).get? 0)
      = some (fmt3 w) from rfl]
  dsimp only
  rw [show ((parseF? (fmt3 w)).getD 1) = round3q w from parseF?_getD_fmt3 w]

/-! ### Round trip, phase A: `NODE` and `TIP` lines -/

lemma set_getElem?_self {α : Type _} {l : List α} {i : Nat} {a : α}
    (h : l[i]? = some a) : l.set i a = l := by
  apply List.ext_getElem?
  intro j
  by_cases hij : i = j
  · subst hij
    rw [List.getElem?_set_self (List.getElem?_eq_some_iff.mp h).1, h]
  · rw [List.getElem?_set_ne hij]

lemma set_concat_length {α : Type _} (l : List α) (x y : α) :
    (l ++ [x]).set l.length y = l ++ [y] := by
  induction l with
  | nil => rfl
  | cons a l ih => simp [List.set_cons_succ, ih]

lemma replace_same_name_find (g : EmotionGraph) (i : Nat) (n n' : EmotionNode)
    (hget : g.nodes[i]? = some n) (hname : n'.name = n.name) (a : String) :
    graph_find ⟨g.nodes.set i n'⟩ a = graph_find g a := by
  rw [graph_find_map_name, graph_find_map_name]
  show ((g.nodes.set i n').map EmotionNode.name).findIdx? _ = _
  rw [List.map_set, hname]
  rw [map_set_self EmotionNode.name hget]

lemma graph_add_tip_found {g : EmotionGraph} {name : String} {i : Nat}
    {cur : EmotionNode} (hf : graph_find g name = some i)
    (hcur : g.nodes[i]? = some cur) (t : String) :
    graph_add_tip g name t = ⟨g.nodes.set i { cur with tips := cur.tips ++ [t] }⟩ := by
  unfold graph_add_tip
  rw [hf]
  dsimp only
  rw [hcur]

lemma setValenceByName_found {g : EmotionGraph} {name : String} {i : Nat}
    {cur : EmotionNode} (hf : graph_find g name = some i)
    (hcur : g.nodes[i]? = some cur) (v : ℚ) :
    setValenceByName g name v = ⟨g.nodes.set i { cur with valence := v }⟩ := by
  unfold setValenceByName
  rw [hf]
  dsimp only
  rw [hcur]

lemma setBaselineByName_found {g : EmotionGraph} {name : String} {i : Nat}
    {cur : EmotionNode} (hf : graph_find g name = some i)
    (hcur : g.nodes[i]? = some cur) (b : ℚ) :
    setBaselineByName g name b = ⟨g.nodes.set i { cur with baseline_intensity := b }⟩ := by
  unfold setBaselineByName
  rw [hf]
  dsimp only
  rw [hcur]

/-- Folding the `TIP` lines of one node appends its tips in order. -/
lemma load_tips (name : String) (hn : goodName name) (ts : List String)
    (hts : ∀ t ∈ ts, t.toList.length ≤ 1023) :
    ∀ (h : EmotionGraph) (i : Nat) (cur : EmotionNode),
      graph_find h name = some i → h.nodes[i]? = some cur →
      (ts.map (tipLine name)).foldl load_line h =
        ⟨h.nodes.set i { cur with tips := cur.tips ++ ts }⟩ := by
  induction ts with
  | nil =>
      intro h i cur hf hcur
      simp only [List.map_nil, List.foldl_nil, List.append_nil]
      rw [set_getElem?_self (by rw [hcur])]
  | cons t ts ih =>
      intro h i cur hf hcur
      simp only [List.map_cons, List.foldl_cons]
      rw [load_line_TIP h name t hn (hts t (List.mem_cons_self t ts))]
      rw [graph_add_tip_found hf hcur t]
      have hget2 : ((⟨h.nodes.set i { cur with tips := cur.tips ++ [t] }⟩ :
          EmotionGraph)).nodes[i]? = some { cur with tips := cur.tips ++ [t] } := by
        show (h.nodes.set i _)[i]? = _
        rw [List.getElem?_set_self]
        exact (List.getElem?_eq_some_iff.mp hcur).1
      rw [ih (fun x hx => hts x (List.mem_cons_of_mem t hx)) _ i _
        (by rw [replace_same_name_find h i cur { cur with tips := cur.tips ++ [t] }
          hcur rfl]; exact hf) hget2]
      show (⟨(h.nodes.set i _).set i _⟩ : EmotionGraph) = _
      rw [List.set_set]
      simp

/-- Loading the saved `NODE` line of a fresh name appends exactly the node
with rounded valence and baseline and no edges or tips. -/
lemma load_node_fresh (g : EmotionGraph) (name : String) (v b : ℚ)
    (hn : goodName name) (hfind : graph_find g name = none) :
    load_line g (nodeLine name v b) =
      ⟨g.nodes ++ [{ name := name, valence := round3q v, baseline_intensity := round3q b,
                     edges := [], tips := [] }]⟩ := by
  have hne := hn.1
  have h47 := hn.2.1
  rw [load_line_NODE g name v b hn]
  have hname : String.mk (name.toList.take 47) = name := by
    rw [List.take_of_length_le h47, string_mk_toList]
  rw [graph_add_node_new hfind, hname]
  have hfind1 : graph_find
      (⟨g.nodes ++ [{ name := name, valence := 0, baseline_intensity := 5,
                      edges := [], tips := [] }]⟩ : EmotionGraph) name
      = some g.nodes.length := by
    rw [graph_find_append, hfind]
    simp
  have hget1 : ((⟨g.nodes ++ [{ name := name, valence := 0, baseline_intensity := 5,
                                 edges := [], tips := [] }]⟩ :
      EmotionGraph)).nodes[g.nodes.length]? =
      some { name := name, valence := 0, baseline_intensity := 5,
             edges := [], tips := [] } := by
    exact List.getElem?_concat_length _ _
  rw [setValenceByName_found hfind1 hget1 (round3q v)]
  dsimp only
  rw [set_concat_length]
  have hfind2 : graph_find
      (⟨g.nodes ++ [{ name := name, valence := round3q v, baseline_intensity := 5,
                      edges := [], tips := [] }]⟩ : EmotionGraph) name
      = some g.nodes.length := by
    rw [graph_find_append, hfind]
    simp
  have hget2 : ((⟨g.nodes ++ [{ name := name, valence := round3q v,
                                 baseline_intensity := 5, edges := [],
                                 tips := [] }]⟩ :
      EmotionGraph)).nodes[g.nodes.length]? =
      some { name := name, valence := round3q v, baseline_intensity := 5,
             edges := [], tips := [] } := by
    exact List.getElem?_concat_length _ _
  rw [setBaselineByName_found hfind2 hget2 (round3q b)]
  dsimp only
  rw [set_concat_length]

/-- Loading the node/tip block of `save_graph` appends the nodes in order,
with valence and baseline rounded to three decimals, the tips in order, and
empty edge lists. -/
lemma load_phase_A (l : List EmotionNode) :
    ∀ (h : EmotionGraph),
      (∀ n ∈ l, goodName n.name) →
      (∀ n ∈ l, ∀ t ∈ n.tips, t.toList.length ≤ 1023) →
      (∀ n ∈ l, graph_find h n.name = none) →
      (l.map EmotionNode.name).Nodup →
      (l.flatMap (fun n => nodeLine n.name n.valence n.baseline_intensity
          :: n.tips.map (tipLine n.name))).foldl load_line h =
        ⟨h.nodes ++ l.map (fun n =>
          { name := n.name, valence := round3q n.valence,
            baseline_intensity := round3q n.baseline_intensity,
            edges := [], tips := n.tips })⟩ := by
  induction l with
  | nil =>
      intro h _ _ _ _
      simp only [List.flatMap_nil, List.foldl_nil, List.map_nil, List.append_nil]
  | cons n l ih =>
      intro h hgood htips hfresh hnodup
      rw [List.flatMap_cons, List.foldl_append]
      have hstep1 : (nodeLine n.name n.valence n.baseline_intensity
          :: n.tips.map (tipLine n.name)).foldl load_line h =
          ⟨h.nodes ++ [{ name := n.name, valence := round3q n.valence,
                         baseline_intensity := round3q n.baseline_intensity,
                         edges := [], tips := n.tips }]⟩ := by
        rw [List.foldl_cons]
        rw [load_node_fresh h n.name n.valence n.baseline_intensity
          (hgood n (List.mem_cons_self n l)) (hfresh n (List.mem_cons_self n l))]
        have hfind : graph_find
            (⟨h.nodes ++ [{ name := n.name, valence := round3q n.valence,
                            baseline_intensity := round3q n.baseline_intensity,
                            edges := [], tips := [] }]⟩ : EmotionGraph) n.name
            = some h.nodes.length := by
          rw [graph_find_append, hfresh n (List.mem_cons_self n l)]
          simp
        have hget : ((⟨h.nodes ++ [{ name := n.name, valence := round3q n.valence,
                                     baseline_intensity := round3q n.baseline_intensity,
                                     edges := [], tips := [] }]⟩ :
            EmotionGraph)).nodes[h.nodes.length]? =
            some { name := n.name, valence := round3q n.valence,
                   baseline_intensity := round3q n.baseline_intensity,
                   edges := [], tips := [] } :=
          List.getElem?_concat_length _ _
        rw [load_tips n.name (hgood n (List.mem_cons_self n l)) n.tips
          (htips n (List.mem_cons_self n l)) _ h.nodes.length _ hfind hget]
        show (⟨(h.nodes ++ [_]).set h.nodes.length _⟩ : EmotionGraph) = _
        rw [set_concat_length]
        simp
      rw [hstep1]
      rw [ih _ (fun x hx => hgood x (List.mem_cons_of_mem n hx))
        (fun x hx => htips x (List.mem_cons_of_mem n hx))
        (by
          intro m hm
          rw [graph_find_append, hfresh m (List.mem_cons_of_mem n hm)]
          rw [if_neg]
          · rfl
          · intro hcontra
            apply (List.nodup_cons.mp hnodup).1
            rw [hcontra]
            exact List.mem_map_of_mem EmotionNode.name hm)
        (List.nodup_cons.mp hnodup).2]
      simp [List.append_assoc]

/-! ### Round trip, phase B: `EDGE` lines -/

/-- Net effect of loading one saved `EDGE` line once both endpoints resolve:
push the forward copy (with the reloaded procedure text) and the mirror copy
(no procedure). -/
def applyTuple (h : EmotionGraph) (t : Nat × Nat × ℚ × String) : EmotionGraph :=
  pushEdge (pushEdge h t.1 ⟨t.2.1, t.2.2.1, some t.2.2.2⟩) t.2.1 ⟨t.1, t.2.2.1, none⟩

/-- Edges node `i` receives from one reloaded `EDGE` record. -/
def contribT (t : Nat × Nat × ℚ × String) (i : Nat) : List Edge :=
  (if t.1 = i then [⟨t.2.1, t.2.2.1, some t.2.2.2⟩] else []) ++
  (if t.2.1 = i then [⟨t.1, t.2.2.1, none⟩] else [])

/-- The (source index, edge) pairs whose records `save_graph` writes: each
stored edge whose source index is strictly below its target index. -/
def savedPairs (g : EmotionGraph) : List (Nat × Edge) :=
  g.nodes.enum.flatMap (fun pa =>
    (pa.2.edges.filter (fun e => pa.1 < e.toIdx)).map (fun e => (pa.1, e)))

/-- The records `save_graph` writes, as reloaded tuples: indices, weight
rounded to three decimals, and the procedure text with an absent procedure
replaced by the empty string. -/
def savedTuples (g : EmotionGraph) : List (Nat × Nat × ℚ × String) :=
  (savedPairs g).map (fun ie => (ie.1, ie.2.toIdx, round3q ie.2.weight,
    ie.2.procedure.getD ""))

lemma round3q_nonneg {q : ℚ} (h : 0 ≤ q) : 0 ≤ round3q q := by
  unfold round3q
  apply div_nonneg _ (by norm_num)
  have : (0 : ℤ) ≤ round (q * 1000) := by
    rw [round_eq]
    apply Int.le_floor.mpr
    push_cast
    linarith
  exact_mod_cast this

lemma add_edge_as_applyTuple {h : EmotionGraph} {a b : String} {u v : Nat} (w : ℚ) (pr : String)
    (hforb : ¬ (a = "overwhelmed" ∧ is_positive_goal_name b = true))
    (hu : graph_find h a = some u) (hv : graph_find h b = some v) (hw : 0 ≤ w) :
    graph_add_edge h a b w (some pr) = applyTuple h (u, v, w, pr) := by
  have heq := graph_add_edge_eq h a b w (some pr) hforb
  rw [graph_add_node_found hu] at heq
  rw [graph_add_node_found hv] at heq
  dsimp only at heq
  rw [heq]
  unfold applyTuple
  dsimp only
  rw [show clampW w = w from by unfold clampW; rw [if_neg (not_lt.mpr hw)]]

lemma applyTuple_getElem (h : EmotionGraph) (t : Nat × Nat × ℚ × String)
    (ht1 : t.1 < h.nodes.length) (ht2 : t.2.1 < h.nodes.length) (i : Nat) :
    (applyTuple h t).nodes[i]? =
      (h.nodes[i]?).map (fun n => { n with edges := n.edges ++ contribT t i }) := by
  obtain ⟨u, v, w, pr⟩ := t
  dsimp only at ht1 ht2
  unfold applyTuple contribT
  dsimp only
  by_cases hui : u = i
  · subst hui
    have hget : h.nodes[u]? = some h.nodes[u] := List.getElem?_eq_getElem ht1
    by_cases hvu : v = u
    · subst hvu
      rw [pushEdge_self _ (pushEdge_self _ hget), hget]
      simp
    · rw [pushEdge_other _ hvu, pushEdge_self _ hget, hget]
      simp [if_neg hvu]
  · by_cases hvi : v = i
    · subst hvi
      have hget : h.nodes[v]? = some h.nodes[v] := List.getElem?_eq_getElem ht2
      rw [pushEdge_self _ (by rw [pushEdge_other _ hui]; exact hget), hget]
      simp [if_neg hui]
    · rw [pushEdge_other _ hvi, pushEdge_other _ hui]
      cases hh : h.nodes[i]? <;> simp [if_neg hui, if_neg hvi]

lemma applyTuple_length (h : EmotionGraph) (t : Nat × Nat × ℚ × String) :
    (applyTuple h t).nodes.length = h.nodes.length := by
  unfold applyTuple
  rw [pushEdge_length, pushEdge_length]

lemma applyTuple_names (h : EmotionGraph) (t : Nat × Nat × ℚ × String) :
    (applyTuple h t).nodes.map EmotionNode.name = h.nodes.map EmotionNode.name := by
  unfold applyTuple
  rw [pushEdge_map_name, pushEdge_map_name]

lemma foldl_applyTuple_getElem (L : List (Nat × Nat × ℚ × String)) :
    ∀ (h : EmotionGraph), (∀ t ∈ L, t.1 < h.nodes.length ∧ t.2.1 < h.nodes.length) →
    ∀ (i : Nat), (L.foldl applyTuple h).nodes[i]? =
      (h.nodes[i]?).map (fun n =>
        { n with edges := n.edges ++ L.flatMap (fun t => contribT t i) }) := by
  induction L with
  | nil =>
      intro h _ i
      simp only [List.foldl_nil, List.flatMap_nil, List.append_nil]
      cases h.nodes[i]? <;> rfl
  | cons t L ih =>
      intro h hb i
      rw [List.foldl_cons]
      rw [ih (applyTuple h t) (fun x hx => by
        rw [applyTuple_length]
        exact hb x (List.mem_cons_of_mem t hx)) i]
      rw [applyTuple_getElem h t (hb t (List.mem_cons_self t L)).1
        (hb t (List.mem_cons_self t L)).2 i]
      cases hh : h.nodes[i]? <;> simp [List.flatMap_cons, List.append_assoc]

lemma foldl_applyTuple_length (L : List (Nat × Nat × ℚ × String)) :
    ∀ (h : EmotionGraph), (L.foldl applyTuple h).nodes.length = h.nodes.length := by
  induction L with
  | nil => intro h; rfl
  | cons t L ih => intro h; rw [List.foldl_cons, ih, applyTuple_length]

lemma findIdx?_nodup {N : List String} (hnd : N.Nodup) {i : Nat} {a : String}
    (h : N[i]? = some a) : N.findIdx? (fun s => s = a) = some i := by
  rw [List.findIdx?_eq_some_iff_getElem]
  obtain ⟨hi, ha⟩ := List.getElem?_eq_some_iff.mp h
  refine ⟨hi, by simp [ha], ?_⟩
  intro j hj
  simp only [decide_eq_true_eq]
  intro hcontra
  have hji : j < N.length := lt_trans hj hi
  have : j = i := (List.Nodup.getElem_inj_iff hnd).mp (by rw [ha]; exact hcontra)
  omega

lemma graph_find_of_names {g h : EmotionGraph}
    (hnames : h.nodes.map EmotionNode.name = g.nodes.map EmotionNode.name)
    (hnd : (g.nodes.map EmotionNode.name).Nodup) {i : Nat} {n : EmotionNode}
    (hget : g.nodes[i]? = some n) : graph_find h n.name = some i := by
  rw [graph_find_map_name, hnames]
  apply findIdx?_nodup hnd
  rw [List.getElem?_map, hget]
  rfl

lemma savedPairs_mem {g : EmotionGraph} {ie : Nat × Edge} (h : ie ∈ savedPairs g) :
    ∃ n, g.nodes[ie.1]? = some n ∧ ie.2 ∈ n.edges ∧ ie.1 < ie.2.toIdx := by
  unfold savedPairs at h
  rw [List.mem_flatMap] at h
  obtain ⟨pa, hpa, hmem⟩ := h
  rw [List.mem_map] at hmem
  obtain ⟨e, he, rfl⟩ := hmem
  rw [List.mem_filter] at he
  refine ⟨pa.2, ?_, he.1, by simpa using he.2⟩
  exact List.mem_enum_iff_getElem?.mp hpa

/-- Well-formedness needed for a faithful textual round trip: whitespace- and
quote-free nonempty names within the stored 47-character bound, distinct
names, in-range edge targets, clamped (nonnegative) weights, codec-safe tip
and procedure texts, and no stored `overwhelmed → positive` edge in the
direction the saver writes (such a record would be refused on reload). -/
structure WFGraph (g : EmotionGraph) : Prop where
  names_good : ∀ n ∈ g.nodes, goodName n.name
  names_nodup : (g.nodes.map EmotionNode.name).Nodup
  edges_lt : ∀ n ∈ g.nodes, ∀ e ∈ n.edges, e.toIdx < g.nodes.length
  weights_nonneg : ∀ n ∈ g.nodes, ∀ e ∈ n.edges, 0 ≤ e.weight
  tips_good : ∀ n ∈ g.nodes, ∀ t ∈ n.tips, goodText t
  procs_good : ∀ n ∈ g.nodes, ∀ e ∈ n.edges, ∀ pr ∈ e.procedure, goodText pr
  no_forbidden : ∀ pa ∈ g.nodes.enum, ∀ e ∈ pa.2.edges, pa.1 < e.toIdx →
    ¬(pa.2.name = "overwhelmed" ∧
      is_positive_goal_name (g.nodes.getD e.toIdx dummyNode).name = true)

/-- Folding the saved `EDGE` lines over any graph with the same (distinct)
names as `g` equals folding the corresponding reload tuples. -/
lemma load_edge_lines (g : EmotionGraph) (hwf : WFGraph g) :
    ∀ (items : List (Nat × Edge)),
      (∀ ie ∈ items, ∃ n, g.nodes[ie.1]? = some n ∧ ie.2 ∈ n.edges ∧ ie.1 < ie.2.toIdx) →
      ∀ (h : EmotionGraph),
        h.nodes.map EmotionNode.name = g.nodes.map EmotionNode.name →
        (items.map (fun ie => edgeLine (g.nodes.getD ie.1 dummyNode).name
            (g.nodes.getD ie.2.toIdx dummyNode).name ie.2.weight
            ie.2.procedure)).foldl load_line h =
        (items.map (fun ie => (ie.1, ie.2.toIdx, round3q ie.2.weight,
            ie.2.procedure.getD ""))).foldl applyTuple h := by
  intro items
  induction items with
  | nil => intro _ h _; rfl
  | cons ie items ih =>
      intro hmem h hnames
      obtain ⟨n, hn, he, hlt⟩ := hmem ie (List.mem_cons_self ie items)
      have hnmem : n ∈ g.nodes := List.getElem?_mem hn
      have htolt : ie.2.toIdx < g.nodes.length := hwf.edges_lt n hnmem ie.2 he
      obtain ⟨m, hm⟩ : ∃ m, g.nodes[ie.2.toIdx]? = some m :=
        ⟨_, List.getElem?_eq_getElem htolt⟩
      have hmmem : m ∈ g.nodes := List.getElem?_mem hm
      have hgdn : g.nodes.getD ie.1 dummyNode = n := by
        rw [List.getD_eq_getElem?_getD, hn]
        rfl
      have hgdm : g.nodes.getD ie.2.toIdx dummyNode = m := by
        rw [List.getD_eq_getElem?_getD, hm]
        rfl
      have hforb : ¬(n.name = "overwhelmed" ∧
          is_positive_goal_name m.name = true) := by
        have := hwf.no_forbidden (ie.1, n) (List.mem_enum_iff_getElem?.mpr hn) ie.2 he hlt
        rw [hgdm] at this
        exact this
      have hprlen : (ie.2.procedure.getD "").toList.length ≤ 1023 := by
        cases hpr : ie.2.procedure with
        | none => simp
        | some prr =>
            have := hwf.procs_good n hnmem ie.2 he prr (by rw [hpr]; rfl)
            simpa using this.1
      rw [List.map_cons, List.map_cons, List.foldl_cons, List.foldl_cons]
      rw [hgdn, hgdm]
      rw [load_line_EDGE h n.name m.name ie.2.weight ie.2.procedure
        (hwf.names_good n hnmem) (hwf.names_good m hmmem) hprlen]
      rw [add_edge_as_applyTuple (round3q ie.2.weight) (ie.2.procedure.getD "") hforb
        (graph_find_of_names hnames hwf.names_nodup hn)
        (graph_find_of_names hnames hwf.names_nodup hm)
        (round3q_nonneg (hwf.weights_nonneg n hnmem ie.2 he))]
      exact ih (fun x hx => hmem x (List.mem_cons_of_mem ie hx)) _
        (by rw [applyTuple_names, hnames])

lemma flatMap_congr {α β : Type _} {l : List α} {f f2 : α → List β}
    (h : ∀ x ∈ l, f x = f2 x) : l.flatMap f = l.flatMap f2 := by
  induction l with
  | nil => rfl
  | cons a l ih =>
      rw [List.flatMap_cons, List.flatMap_cons, h a (List.mem_cons_self a l),
        ih (fun x hx => h x (List.mem_cons_of_mem a hx))]

lemma saved_edge_lines (g : EmotionGraph) :
    g.nodes.enum.flatMap (fun pa =>
      (pa.2.edges.filter (fun e => pa.1 < e.toIdx)).map (fun e =>
        edgeLine pa.2.name (g.nodes.getD e.toIdx dummyNode).name e.weight e.procedure)) =
    (savedPairs g).map (fun ie => edgeLine (g.nodes.getD ie.1 dummyNode).name
      (g.nodes.getD ie.2.toIdx dummyNode).name ie.2.weight ie.2.procedure) := by
  unfold savedPairs
  rw [List.map_flatMap]
  apply flatMap_congr
  intro pa hpa
  rw [List.map_map]
  have hgd : g.nodes.getD pa.1 dummyNode = pa.2 := by
    rw [List.getD_eq_getElem?_getD, List.mem_enum_iff_getElem?.mp hpa]
    rfl
  apply List.map_congr_left
  intro e he
  dsimp only [Function.comp]
  rw [hgd]

/-- The graph the amended round-trip claim predicts: same node names in
order, valence and baseline rounded to three decimals, tips unchanged, and
each node's edges rebuilt from the written records — the forward copy
carries the written procedure text (absent saved as `""`), the mirror copy
none. -/
def roundTripped (g : EmotionGraph) : EmotionGraph :=
  ⟨g.nodes.enum.map (fun pa =>
    { name := pa.2.name, valence := round3q pa.2.valence,
      baseline_intensity := round3q pa.2.baseline_intensity,
      edges := (savedTuples g).flatMap (fun t => contribT t pa.1),
      tips := pa.2.tips })⟩

/-- C1 amended: loading a save of a well-formed graph whose record lines all
fit the loader's 1023-byte `fgets` line buffer (at most 1022 characters plus
the newline terminator — longer lines would be split and parsed as separate
truncated records) into a fresh graph reproduces the node names in order,
valence and baseline rounded to three decimals, and the tips in order; the
edges are rebuilt from the written records (one per mirrored pair, from the
lower-index endpoint), both directions recreated with rounded weights, the
forward copy carrying the written procedure text (an absent procedure having
been saved as `""` and reloaded as the present-but-empty procedure) and the
mirror copy carrying none — so procedures, unlike everything else, do not
round-trip exactly. -/
theorem C1_roundtrip_amended (g : EmotionGraph) (hwf : WFGraph g)
    (hfit : ∀ l ∈ save_graph g, l.length ≤ 1022 ∧ '\n' ∉ l) :
    load_graph graph_new (save_file g) = roundTripped g := by
  rw [save_file, load_graph_lines (save_graph g) graph_new hfit]
  unfold loadLines save_graph
  rw [List.foldl_append]
  rw [load_phase_A g.nodes graph_new hwf.names_good
    (fun n hn t ht => (hwf.tips_good n hn t ht).1)
    (fun n _ => rfl)
    hwf.names_nodup]
  rw [saved_edge_lines g]
  have hnames : ((⟨graph_new.nodes ++ g.nodes.map (fun n =>
      { name := n.name, valence := round3q n.valence,
        baseline_intensity := round3q n.baseline_intensity,
        edges := [], tips := n.tips })⟩ : EmotionGraph)).nodes.map EmotionNode.name
      = g.nodes.map EmotionNode.name := by
    show (([] : List EmotionNode) ++ _).map EmotionNode.name = _
    rw [List.nil_append, List.map_map]
    rfl
  rw [load_edge_lines g hwf (savedPairs g) (fun ie hie => savedPairs_mem hie) _ hnames]
  show (savedTuples g).foldl applyTuple _ = _
  have hbounds : ∀ t ∈ savedTuples g,
      t.1 < (((⟨graph_new.nodes ++ g.nodes.map (fun n =>
        { name := n.name, valence := round3q n.valence,
          baseline_intensity := round3q n.baseline_intensity,
          edges := [], tips := n.tips })⟩ : EmotionGraph))).nodes.length ∧
      t.2.1 < (((⟨graph_new.nodes ++ g.nodes.map (fun n =>
        { name := n.name, valence := round3q n.valence,
          baseline_intensity := round3q n.baseline_intensity,
          edges := [], tips := n.tips })⟩ : EmotionGraph))).nodes.length := by
    intro t ht
    have hlen : (((⟨graph_new.nodes ++ g.nodes.map (fun n =>
        { name := n.name, valence := round3q n.valence,
          baseline_intensity := round3q n.baseline_intensity,
          edges := [], tips := n.tips })⟩ : EmotionGraph))).nodes.length
        = g.nodes.length := by
      show (([] : List EmotionNode) ++ _).length = _
      rw [List.nil_append, List.length_map]
    rw [hlen]
    unfold savedTuples at ht
    rw [List.mem_map] at ht
    obtain ⟨ie, hie, rfl⟩ := ht
    obtain ⟨n, hn, he, hlt⟩ := savedPairs_mem hie
    constructor
    · exact (List.getElem?_eq_some_iff.mp hn).1
    · exact hwf.edges_lt n (List.getElem?_mem hn) ie.2 he
  apply congrArg EmotionGraph.mk
  apply List.ext_getElem?
  intro i
  rw [foldl_applyTuple_getElem (savedTuples g) _ hbounds i]
  show (((([] : List EmotionNode) ++ g.nodes.map _))[i]?.map _) = _
  rw [List.nil_append, List.getElem?_map]
  rw [List.getElem?_map,
    show g.nodes.enum = g.nodes.enumFrom 0 from rfl, List.getElem?_enumFrom]
  cases hh : g.nodes[i]? with
  | none => rfl
  | some n => simp


/-- A two-node example graph exercising the round trip: a tip with quote and
backslash, a procedure-carrying edge, mirrored. -/
def c1Example : EmotionGraph :=
  graph_add_edge (graph_add_tip graph_new "anxious" "breathe \"slowly\" \\ deeply")
    "anxious" "grounded" (3/2) (some "walk 2 min")

theorem C1_roundtrip_amended_witness :
    load_graph graph_new (save_file c1Example) = roundTripped c1Example :=
  C1_roundtrip_amended c1Example
    ⟨by with_unfolding_all decide, by with_unfolding_all decide,
     by with_unfolding_all decide, by with_unfolding_all decide,
     by with_unfolding_all decide, by with_unfolding_all decide,
     by with_unfolding_all decide⟩
    (by with_unfolding_all decide)

/-- C1 counterexample: the round trip is not exact as claimed — saving a
single mirrored edge whose procedure is absent and reloading yields a graph
whose forward edge carries the present-but-empty procedure `some ""` where
the original carried `none`, so the edges' procedures differ. -/
theorem C1_procedures_not_preserved :
    ((load_graph graph_new (save_file (graph_add_edge graph_new "a" "b" 1 none))).nodes.map
      (fun n => n.edges.map (fun e => e.procedure)) = [[some ""], [none]]) ∧
    ((graph_add_edge graph_new "a" "b" 1 none).nodes.map
      (fun n => n.edges.map (fun e => e.procedure)) = [[none], [none]]) ∧
    ([[some ""], [none]] : List (List (Option String))) ≠ [[none], [none]] := by
  refine ⟨?_, ?_, by decide⟩
  · with_unfolding_all decide
  · with_unfolding_all decide

end EmotionPath
